import Mathlib

/-!
# Verification of the ReadySet materialization planner (controller/migrate)

Shallow embedding of `noria/server/src/controller/migrate/materialization/mod.rs`
(`Materializations::extend`, `Materializations::commit`, `map_indices`,
`Materializations::next_tag`) and of
`noria/server/src/controller/migrate/mod.rs` (`DomainMigrationPlan::add_message`,
`DomainMigrationPlan::add_message_for_shard`).

Modelling conventions:
* `HashMap`/`HashSet` become association lists / duplicate-free lists with
  insert-if-absent; iteration order is list order.
* Rust `Result` errors become `Outcome.err`; Rust panics (`unwrap`, `assert!`,
  `unreachable!`, out-of-bounds indexing, divergence) become `Outcome.panic`.
* Machine integers become `Nat` with explicit `% 2^32` / `% 2^64` where the
  source truncates (`as u32`) or wraps (`AtomicUsize::fetch_add`).
* `&mut self` methods become state transformers returning the updated state in
  every case, including errors, mirroring the fact that Rust leaves the mutated
  state in place when an error is returned.
* The types `Index`, `Tag`, node capabilities, and the functions of the `keys`
  module (`replay_paths_for_nonstop`, `provenance_of`) and the planner
  `materialization/plan.rs` are not part of the sources; they are modelled from
  the specification where needed (doc comments say so explicitly).
-/

namespace ReadysetProof

/-- Modelled from the spec: `Index` kind — `Hash | Ordered` (§3); in the code
`Index::hash_map` builds the hash variant. -/
inductive IndexType : Type where
  | hashKind : IndexType
  | orderedKind : IndexType
deriving DecidableEq, Repr

/-- Modelled from the spec: an `Index` is an index kind plus an ordered list of
column indices (§3). -/
structure Index : Type where
  indexType : IndexType
  columns : List Nat
deriving DecidableEq, Repr

/-- `Index::hash_map(columns)`. -/
def Index.hashMap (cols : List Nat) : Index := ⟨IndexType.hashKind, cols⟩

/-- The `ReadySetError` variants relevant to the embedded code.
`internal` stands for `ReadySetError::Internal` as produced by the `internal!`
/ `internal_err` / `invariant!` macros (the message string is the formatted
text); `resolveFailed` is the `internal_err` built in `map_indices`, which
formats the node, the ancestor and the column into its message — we keep the
three values structurally. -/
inductive RSError : Type where
  | internal : String → RSError
  | resolveFailed : (node : Nat) → (ancestor : Nat) → (column : Nat) → RSError
  | migrationUnknownDomain : (domainIndex : Nat) → (shard : Option Nat) → RSError
deriving DecidableEq, Repr

/-- Outcome of running a piece of Rust code: normal result, returned error
(`Err(ReadySetError)`), or a panic (`unwrap`/`assert!`/`unreachable!`/OOB). -/
inductive Outcome (α : Type) : Type where
  | ok : α → Outcome α
  | err : RSError → Outcome α
  | panic : String → Outcome α
deriving DecidableEq, Repr

def Outcome.isOkB {α : Type} [DecidableEq α] : Outcome α → Bool
  | .ok _ => true
  | _ => false

def Outcome.isErrB {α : Type} : Outcome α → Bool
  | .err _ => true
  | _ => false

def Outcome.isPanicB {α : Type} : Outcome α → Bool
  | .panic _ => true
  | _ => false

/-! ## List-based maps and sets (model of `HashMap` / `HashSet`) -/

/-- Lookup in an association list (`HashMap::get`). -/
def alookup {α : Type} (m : List (Nat × α)) (k : Nat) : Option α :=
  (m.find? (fun p => p.1 == k)).map (fun p => p.2)

/-- Key set of an association list (`HashMap::keys`). -/
def akeys {α : Type} (m : List (Nat × α)) : List Nat := m.map (fun p => p.1)

/-- `HashSet::insert` on a duplicate-free list: returns whether the element was
newly inserted, and the updated set. -/
def setInsert (s : List Index) (i : Index) : Bool × List Index :=
  if i ∈ s then (false, s) else (true, s ++ [i])

/-- `map.entry(k).or_default().insert(i)` for a map of index sets: returns
whether the index was new for that key, and the updated map. -/
def mapSetInsert (m : List (Nat × List Index)) (k : Nat) (i : Index) :
    Bool × List (Nat × List Index) :=
  match alookup m k with
  | none => (true, m ++ [(k, [i])])
  | some s =>
      ((setInsert s i).1, m.map (fun p => if p.1 == k then (p.1, (setInsert s i).2) else p))

/-- `map.entry(k).or_insert_with(HashSet::new)`: ensure the key exists. -/
def ensureKey (m : List (Nat × List Index)) (k : Nat) : List (Nat × List Index) :=
  match alookup m k with
  | none => m ++ [(k, [])]
  | some _ => m

/-- `HashMap::remove` returning the removed value and the shrunk map. -/
def aremove {α : Type} (m : List (Nat × α)) (k : Nat) :
    Option α × List (Nat × α) :=
  (alookup m k, m.filter (fun p => p.1 != k))

/-- Equality of two index sets represented as lists (`HashSet == HashSet`). -/
def setEqB (s t : List Index) : Bool :=
  s.all (fun i => i ∈ t) && t.all (fun i => i ∈ s)

/-! ## Strings: `str::starts_with` and `str::contains` -/

/-- `pat` is a prefix of `s` (character lists). -/
def charsPre : List Char → List Char → Bool
  | [], _ => true
  | _ :: _, [] => false
  | p :: ps, c :: cs => p == c && charsPre ps cs

/-- `pat` occurs as a contiguous substring of `s` (character lists). -/
def charsSub (pat : List Char) : List Char → Bool
  | [] => charsPre pat []
  | c :: cs => charsPre pat (c :: cs) || charsSub pat cs

/-- `str::starts_with`. -/
def strStarts (s pat : String) : Bool := charsPre pat.toList s.toList

/-- `str::contains`. -/
def strContains (s pat : String) : Bool := charsSub pat.toList s.toList

/-! ## The graph model

Modelled from the spec (§3 "Node", §4.2 operator contracts): nodes carry a
kind, a name, the `purge` (eager-evict) flag, the reader's key when the node is
a reader, the `suggest_indexes` result, the `can_query_through` and
`requires_full_materialization` capability bits, and column provenance
(`parent_columns`) as a finite table `column ↦ [(ancestor, Option column)]`.
`globalAddr` is the node's own index as reported by `global_addr()`. -/

inductive NodeKind : Type where
  | source | baseTable | internalOp | reader | ingress | egress
  | sharder | shardMerger | dropped
deriving DecidableEq, Repr

structure Node : Type where
  kind : NodeKind
  name : String
  purge : Bool
  globalAddr : Nat
  readerKey : Option (List Nat) := none
  suggested : List (Nat × Index) := []
  canQueryThrough : Bool := false
  requiresFullMat : Bool := false
  parentCols : List (Nat × List (Nat × Option Nat)) := []
  shardedByCol : Option Nat := none
  fieldsLen : Nat := 0
deriving DecidableEq, Repr

def Node.isInternal (n : Node) : Bool := n.kind == NodeKind.internalOp
def Node.isBase (n : Node) : Bool := n.kind == NodeKind.baseTable
def Node.isReader (n : Node) : Bool := n.kind == NodeKind.reader
def Node.isSource (n : Node) : Bool := n.kind == NodeKind.source
def Node.isDropped (n : Node) : Bool := n.kind == NodeKind.dropped
def Node.isShardMerger (n : Node) : Bool := n.kind == NodeKind.shardMerger

/-- `parent_columns(col)` — provenance of one column (§4.2). Columns outside
the table resolve to nothing, which makes `map_indices` produce its structured
error downstream. -/
def Node.parentColumns (n : Node) (col : Nat) : List (Nat × Option Nat) :=
  (alookup n.parentCols col).getD []

/-- Placeholder for `graph[ni]` when the index is absent (petgraph would
panic; concrete runs never hit this). -/
def missingNode : Node := ⟨NodeKind.dropped, "", false, 0, none, [], false, false, [], none, 0⟩

/-- A directed dataflow graph: nodes keyed by their `NodeIndex`, edges as
`(parent, child)` pairs. -/
structure Graph : Type where
  nodes : List (Nat × Node)
  edges : List (Nat × Nat)
deriving DecidableEq, Repr

def Graph.node? (g : Graph) (ni : Nat) : Option Node := alookup g.nodes ni

/-- `graph[ni]` (total version; see `missingNode`). -/
def Graph.nodeD (g : Graph) (ni : Nat) : Node := (g.node? ni).getD missingNode

/-- `graph.neighbors_directed(ni, Incoming)`. -/
def Graph.parentsOf (g : Graph) (ni : Nat) : List Nat :=
  (g.edges.filter (fun e => e.2 == ni)).map (fun e => e.1)

/-- `graph.neighbors_directed(ni, Outgoing)`. -/
def Graph.childrenOf (g : Graph) (ni : Nat) : List Nat :=
  (g.edges.filter (fun e => e.1 == ni)).map (fun e => e.2)

/-- Set the `purge` flag of node `ni` (`node_weight_mut(ni).unwrap().purge = b`). -/
def Graph.setPurge (g : Graph) (ni : Nat) (b : Bool) : Graph :=
  { g with nodes := g.nodes.map (fun p => if p.1 == ni then (p.1, { p.2 with purge := b }) else p) }

/-- The `purge` flag of node `ni`. -/
def Graph.purgeOf (g : Graph) (ni : Nat) : Bool := (g.nodeD ni).purge

/-! ## `FrontierStrategy` and the `Materializations` registry -/

/-- `FrontierStrategy` (materialization/mod.rs lines 35–44):
`None`, `AllPartial`, `Readers`, `Match(String)`. -/
inductive FrontierStrategy : Type where
  | fsNone : FrontierStrategy
  | fsAllP : FrontierStrategy
  | fsReaders : FrontierStrategy
  | fsMatch : String → FrontierStrategy
deriving DecidableEq, Repr

/-- The `Materializations` registry (materialization/mod.rs lines 52–68).
`haveM`/`added` are per-node index sets (`have`/`added` in the source; `have`
is a Lean keyword), `partialM` is the set of partially materialized nodes,
`tagGenerator` the `AtomicUsize` behind `next_tag`. The `log` field and the
`paths` registry (only touched by the absent planner `plan.rs`) are omitted. -/
structure Materializations : Type where
  haveM : List (Nat × List Index)
  added : List (Nat × List Index)
  partialM : List Nat
  partialEnabled : Bool
  strategy : FrontierStrategy
  tagGenerator : Nat
deriving DecidableEq, Repr

/-- `Materializations::next_tag` (materialization/mod.rs lines 106–108):
`Tag::new(self.tag_generator.fetch_add(1, Ordering::SeqCst) as u32)`.
`fetch_add` returns the previous value of the (64-bit) counter and wraps;
`as u32` truncates to 32 bits. Returns the tag value and the updated state. -/
def nextTag (s : Materializations) : Nat × Materializations :=
  (s.tagGenerator % 2 ^ 32, { s with tagGenerator := (s.tagGenerator + 1) % 2 ^ 64 })

/-- The registry after `k` calls to `next_tag`, starting from tag counter 0
(as `Materializations::new` initializes it). -/
def matAfterCalls : Nat → Materializations
  | 0 => ⟨[], [], [], true, FrontierStrategy.fsNone, 0⟩
  | k + 1 => (nextTag (matAfterCalls k)).2

/-- The tag returned by the `k`-th call (0-based) to `next_tag` on a registry
whose counter started at 0. -/
def tagOfCall (k : Nat) : Nat := (nextTag (matAfterCalls k)).1

/-! ## `DomainMigrationPlan` (migrate/mod.rs lines 136–145, 255–299) -/

/-- A stored message: destination domain, optional shard, request payload. The
request type is abstract (its variants live outside the planner). -/
structure StoredDomainRequest (Req : Type) : Type where
  domain : Nat
  shard : Option Nat
  req : Req
deriving DecidableEq, Repr

/-- `DomainMigrationPlan` with the fields the enqueue functions touch:
the ordered message list and the `valid_domains` map (domain ↦ shard count).
The `place` list is independent of the two enqueue functions. -/
structure DomainMigrationPlan (Req : Type) : Type where
  stored : List (StoredDomainRequest Req)
  validDomains : List (Nat × Nat)
deriving DecidableEq, Repr

/-- `DomainMigrationPlan::add_message_for_shard` (migrate/mod.rs lines
255–279): validate the `(domain, shard)` pair against `valid_domains`, then
push; on failure return `MigrationUnknownDomain` and leave the plan as is. -/
def addMessageForShard {Req : Type} (p : DomainMigrationPlan Req)
    (domain shard : Nat) (req : Req) :
    Except RSError Unit × DomainMigrationPlan Req :=
  if (match alookup p.validDomains domain with
      | some nShards => decide (shard < nShards)
      | none => false) then
    (Except.ok (), { p with stored := p.stored ++ [⟨domain, some shard, req⟩] })
  else
    (Except.error (RSError.migrationUnknownDomain domain (some shard)), p)

/-- `DomainMigrationPlan::add_message` (migrate/mod.rs lines 285–299). -/
def addMessage {Req : Type} (p : DomainMigrationPlan Req)
    (domain : Nat) (req : Req) :
    Except RSError Unit × DomainMigrationPlan Req :=
  if (alookup p.validDomains domain).isSome then
    (Except.ok (), { p with stored := p.stored ++ [⟨domain, none, req⟩] })
  else
    (Except.error (RSError.migrationUnknownDomain domain none), p)

/-! ## `Materializations::extend`, stage 1: computing indexing obligations
(materialization/mod.rs lines 146–200) -/

/-- The indexing obligations contributed by one node of `new` (the body of the
`for &ni in new` loop, lines 153–199): a reader with a key contributes
`(ni, Index::hash_map(key), false)`; a reader without a key contributes
nothing (`continue`); any other node contributes its `suggest_indexes` map
with the boolean forced to `true`; a base node with no suggestion gets the
default `(ni, Index::hash_map([0]), true)`. Entries are
`(target node, index, lookup?)`. -/
def nodeIndices (g : Graph) (ni : Nat) : List (Nat × Index × Bool) :=
  let n := g.nodeD ni
  if n.isReader then
    match n.readerKey with
    | some key => [(ni, Index.hashMap key, false)]
    | none => []
  else
    let ind := n.suggested.map (fun kc => (kc.1, kc.2, true))
    if ind.isEmpty && n.isBase then [(ni, Index.hashMap [0], true)] else ind

/-- Record one obligation into the `(lookup_obligations, replay_obligations)`
pair (lines 182–199). -/
def recordObligation (acc : List (Nat × List Index) × List (Nat × List Index))
    (t : Nat × Index × Bool) :
    List (Nat × List Index) × List (Nat × List Index) :=
  if t.2.2 then ((mapSetInsert acc.1 t.1 t.2.1).2, acc.2)
  else (acc.1, (mapSetInsert acc.2 t.1 t.2.1).2)

/-- Stage 1 of `extend`: all lookup and replay obligations of the new nodes. -/
def computeObligations (g : Graph) (new : List Nat) :
    List (Nat × List Index) × List (Nat × List Index) :=
  new.foldl (fun acc ni => (nodeIndices g ni).foldl recordObligation acc) ([], [])

/-! ## `map_indices` (materialization/mod.rs lines 203–244) -/

/-- The per-column closure of `map_indices`: a non-internal non-base node keeps
the column (`unreachable!` for a base); an internal node resolves the column
through `parent_columns` towards `parent`, and failure to resolve is the
structured `internal_err` naming node (`global_addr`), ancestor and column. -/
def mapCol (n : Node) (parent col : Nat) : Outcome Nat :=
  if !n.isInternal then
    if n.isBase then Outcome.panic "unreachable: map_indices on a base node"
    else Outcome.ok col
  else
    match ((n.parentColumns col).find? (fun ac => ac.1 == parent)).bind (fun ac => ac.2) with
    | some c => Outcome.ok c
    | none => Outcome.err (RSError.resolveFailed n.globalAddr parent col)

/-- Map the columns of one index through `mapCol` (the inner `collect`). -/
def mapColsList (n : Node) (parent : Nat) : List Nat → Outcome (List Nat)
  | [] => Outcome.ok []
  | c :: cs =>
      match mapCol n parent c with
      | Outcome.ok c' =>
          match mapColsList n parent cs with
          | Outcome.ok cs' => Outcome.ok (c' :: cs')
          | Outcome.err e => Outcome.err e
          | Outcome.panic m => Outcome.panic m
      | Outcome.err e => Outcome.err e
      | Outcome.panic m => Outcome.panic m

/-- `map_indices(n, parent, indices)`: map every index of the set to the
corresponding columns in `parent`, keeping the index type. -/
def mapIndices (n : Node) (parent : Nat) : List Index → Outcome (List Index)
  | [] => Outcome.ok []
  | i :: is =>
      match mapColsList n parent i.columns with
      | Outcome.ok cols' =>
          match mapIndices n parent is with
          | Outcome.ok is' => Outcome.ok (Index.mk i.indexType cols' :: is')
          | Outcome.err e => Outcome.err e
          | Outcome.panic m => Outcome.panic m
      | Outcome.err e => Outcome.err e
      | Outcome.panic m => Outcome.panic m

/-! ## `extend`, stage 2: hoisting lookup obligations
(materialization/mod.rs lines 246–302) -/

/-- The hoisting loop (lines 258–283): walk up from `mi` while the node is not
yet materialized, is internal, and can be queried through; query-through nodes
must have exactly one parent (`assert_eq!`), and the `map_indices` result is
`unwrap`ped — an unresolved column there is a panic, not a returned error. -/
def hoistLoop (g : Graph) (hv : List (Nat × List Index)) :
    Nat → Nat → List Index → Outcome (Nat × List Index)
  | 0, _, _ => Outcome.panic "nontermination: hoisting loop"
  | fuel + 1, mi, idxs =>
      let m := g.nodeD mi
      if (alookup hv mi).isSome then Outcome.ok (mi, idxs)
      else if !m.isInternal || !m.canQueryThrough then Outcome.ok (mi, idxs)
      else
        match g.parentsOf mi with
        | [] => Outcome.panic "unwrap: query_through node has no ancestor"
        | [p] =>
            match mapIndices m p idxs with
            | Outcome.ok idxs' => hoistLoop g hv fuel p idxs'
            | Outcome.err _ => Outcome.panic "unwrap on map_indices error"
            | Outcome.panic msg => Outcome.panic msg
        | _ :: _ :: _ => Outcome.panic "assert: query_through had more than one ancestor"

/-- Record the hoisted columns (lines 285–301): insert each index into
`have[mi]`; a newly inserted index also becomes a replay obligation at `mi` and
is recorded in `added[mi]`. State: `(s, replay_obligations)`. -/
def recordHoisted (mi : Nat) (s : Materializations)
    (rp : List (Nat × List Index)) :
    List Index → Materializations × List (Nat × List Index)
  | [] => (s, rp)
  | columns :: rest =>
      if (mapSetInsert s.haveM mi columns).1 then
        recordHoisted mi
          { s with haveM := (mapSetInsert s.haveM mi columns).2,
                   added := (mapSetInsert s.added mi columns).2 }
          ((mapSetInsert rp mi columns).2) rest
      else
        recordHoisted mi { s with haveM := (mapSetInsert s.haveM mi columns).2 } rp rest

/-- Stage 2 of `extend`: process every lookup obligation in order. -/
def applyLookups (g : Graph) (fuel : Nat) :
    List (Nat × List Index) → Materializations → List (Nat × List Index) →
    Outcome (Materializations × List (Nat × List Index))
  | [], s, rp => Outcome.ok (s, rp)
  | (ni, idxs) :: rest, s, rp =>
      match hoistLoop g s.haveM fuel ni idxs with
      | Outcome.ok mid =>
          applyLookups g fuel rest (recordHoisted mid.1 s rp mid.2).1
            (recordHoisted mid.1 s rp mid.2).2
      | Outcome.err e => Outcome.err e
      | Outcome.panic m => Outcome.panic m

/-! ## Replay paths (modelled from the spec)

`keys::replay_paths_for_nonstop` lives in `controller/keys.rs`, which is not
part of the sources. Modelled from the spec (§3 "Replay Path", §4.4): a replay
path for a column set of a node is an ordered list of `(node, Option columns)`
entries; `None` columns mark a generated column (full replay segment). The
computation itself is treated as an oracle parameter. -/

/-- One replay-path entry (`OptColumnRef { node, cols }`). -/
structure OptColumnRef : Type where
  node : Nat
  cols : Option (List Nat)
deriving DecidableEq, Repr

/-- Modelled from the spec: the type of `keys::replay_paths_for_nonstop`
(graph, target node, key columns ↦ list of replay paths, or an error). -/
abbrev PathsOracle : Type := Graph → Nat → List Nat → Except RSError (List (List OptColumnRef))

/-- Modelled from the spec: the type of `keys::provenance_of` (graph, node,
column list ↦ provenance paths `[(node, [Option column])]`, or an error);
only used by the shard-merger aliasing check in `commit`. -/
abbrev ProvenanceOracle : Type := Graph → Nat → List Nat → Except RSError (List (List (Nat × List (Option Nat))))

/-! ## Topological order (materialization/mod.rs lines 308–323) -/

/-- One step of Kahn's algorithm: the first remaining node all of whose
parents are already emitted. -/
def topoPick (g : Graph) (remaining : List Nat) : Option Nat :=
  remaining.find? (fun ni => (g.parentsOf ni).all (fun p => !(remaining.contains p)))

def topoAux (g : Graph) : Nat → List Nat → List Nat
  | 0, _ => []
  | fuel + 1, remaining =>
      match topoPick g remaining with
      | none => []
      | some ni => ni :: topoAux g fuel (remaining.erase ni)

/-- `petgraph::visit::Topo` over the whole graph. -/
def topoOrder (g : Graph) : List Nat := topoAux g g.nodes.length (g.nodes.map (fun p => p.1))

/-- The `ordered` list of `extend`: topological order minus source and dropped
nodes, reversed (children before parents). -/
def orderedForExtend (g : Graph) : List Nat :=
  ((topoOrder g).filter (fun ni => !(g.nodeD ni).isSource && !(g.nodeD ni).isDropped)).reverse

/-! ## `extend`, stage 3: the partiality analyzer
(materialization/mod.rs lines 304–497) -/

/-- The "do we have a full materialization below us" walk (lines 363–395):
a DFS over outgoing edges with an explicit stack. A descendant named `FULL_*`
forces full; a materialized or keyed-reader descendant that is not partial
forces full; non-materialized descendants are walked through. -/
def descWalk (g : Graph) (s : Materializations) : Nat → List Nat → Bool → Outcome Bool
  | _, [], able => Outcome.ok able
  | 0, _ :: _, _ => Outcome.panic "nontermination: descendant walk"
  | fuel + 1, child :: rest, able =>
      let fullName := strStarts (g.nodeD child).name "FULL_"
      let st0 := if fullName then [] else rest
      let ab0 := able && !fullName
      if (alookup s.haveM child).isSome then
        if !(s.partialM.contains child) then descWalk g s fuel [] false
        else descWalk g s fuel st0 ab0
      else if (g.nodeD child).isReader && (g.nodeD child).readerKey.isSome then
        if !(s.partialM.contains child) then descWalk g s fuel [] false
        else descWalk g s fuel st0 ab0
      else descWalk g s fuel (st0 ++ g.childrenOf child) ab0

/-- The entry loop over one replay path (lines 415–453), after the skip.
`i` is the `enumerate` counter, `nskip` the computed `n_to_skip`. Returns the
updated state, the updated `add` map, and whether a `None`-columns entry was
hit (which is `able = false; break 'attempt` in the source). -/
def pathEntriesLoop (ityp : IndexType) (nskip : Nat) :
    List OptColumnRef → Nat → Materializations → List (Nat × List Index) →
    Materializations × List (Nat × List Index) × Bool
  | [], _, s, add => (s, add, false)
  | e :: rest, i, s, add =>
      match e.cols with
      | none => (s, add, true)
      | some cols =>
          let index := Index.mk ityp cols
          match alookup s.haveM e.node with
          | some m =>
              let add' := if index ∈ m then add else (mapSetInsert add e.node index).2
              (s, add', false)
          | none =>
              if i == 0 && nskip == 0 then
                let s' := { s with haveM := ensureKey s.haveM e.node }
                let add' := (mapSetInsert add e.node index).2
                pathEntriesLoop ityp nskip rest (i + 1) s' add'
              else pathEntriesLoop ityp nskip rest (i + 1) s add

/-- One path (lines 410–416): compute `n_to_skip` from `path[0]` (panic on an
empty path, as `path[0]` would) and run the entry loop. -/
def processOnePath (ityp : IndexType) (ni : Nat) (p : List OptColumnRef)
    (s : Materializations) (add : List (Nat × List Index)) :
    Outcome Unit × Materializations × List (Nat × List Index) × Bool :=
  match p with
  | [] => (Outcome.panic "index out of bounds: path[0]", s, add, false)
  | e0 :: _ =>
      let nskip := if e0.node == ni then 1 else 0
      (Outcome.ok (), pathEntriesLoop ityp nskip (p.drop nskip) 0 s add)

/-- All paths of one index (the `for path in paths` loop): stop at the first
path that hits a `None` entry (`break 'attempt`). -/
def processPathsLoop (ityp : IndexType) (ni : Nat) :
    List (List OptColumnRef) → Materializations → List (Nat × List Index) →
    Outcome Unit × Materializations × List (Nat × List Index) × Bool
  | [], s, add => (Outcome.ok (), s, add, false)
  | p :: ps, s, add =>
      let r := processOnePath ityp ni p s add
      match r.1 with
      | Outcome.ok _ =>
          if r.2.2.2 then (Outcome.ok (), r.2)
          else processPathsLoop ityp ni ps r.2.1 r.2.2.1
      | Outcome.err e => (Outcome.err e, r.2)
      | Outcome.panic m => (Outcome.panic m, r.2)

/-- The `'attempt` loop over the node's replay obligations (lines 397–455).
The boolean is `able`; a `None` entry in any examined path clears it and stops
the loop. `Vec1::try_from(...).unwrap()` panics on an index with no columns. -/
def attemptLoop (g : Graph) (oracle : PathsOracle) (ni : Nat) :
    List Index → Bool → Materializations → List (Nat × List Index) →
    Outcome Unit × Materializations × List (Nat × List Index) × Bool
  | [], able, s, add => (Outcome.ok (), s, add, able)
  | index :: rest, able, s, add =>
      if !able then (Outcome.ok (), s, add, able)
      else if index.columns.isEmpty then
        (Outcome.panic "unwrap: Vec1::try_from on empty columns", s, add, able)
      else
        match oracle g ni index.columns with
        | Except.error e => (Outcome.err e, s, add, able)
        | Except.ok paths =>
            let r := processPathsLoop index.indexType ni paths s add
            match r.1 with
            | Outcome.ok _ =>
                if r.2.2.2 then (Outcome.ok (), r.2.1, r.2.2.1, false)
                else attemptLoop g oracle ni rest true r.2.1 r.2.2.1
            | Outcome.err e => (Outcome.err e, r.2)
            | Outcome.panic m => (Outcome.panic m, r.2)

/-- The replay-obligation fulfilment step (lines 474–494): if the node is
materialized, insert every obligation index into `have[ni]`; record it in
`added[ni]` when it is new or the node is partial. -/
def fulfillObligations (ni : Nat) (indexes : List Index) (s : Materializations) :
    Materializations :=
  match alookup s.haveM ni with
  | none => s
  | some _ =>
      indexes.foldl (fun s index =>
        if (mapSetInsert s.haveM ni index).1 || s.partialM.contains ni then
          { s with haveM := (mapSetInsert s.haveM ni index).2,
                   added := (mapSetInsert s.added ni index).2 }
        else { s with haveM := (mapSetInsert s.haveM ni index).2 }) s

/-- The `able` flag of the stage-3 body before the descendant walk
(lines 340–361): partial must be enabled, the node must not be a base, must
not require full materialization, and must not already be a full
materialization with old indexes. -/
def initialAble (g : Graph) (s : Materializations) (new : List Nat) (ni : Nat) : Bool :=
  let able0 := s.partialEnabled
  let able1 := if (g.nodeD ni).isBase then false else able0
  let able2 := if (g.nodeD ni).isInternal && (g.nodeD ni).requiresFullMat then false else able1
  let ladd := ((alookup s.added ni).getD []).length
  let lhave := ((alookup s.haveM ni).getD []).length
  if !(new.contains ni) && ladd != lhave && !(s.partialM.contains ni) then false else able2

/-- The stage-3 body for one node of `ordered` that has replay obligations
(lines 330–494): decide partiality, then fulfil the obligations. `rp` is the
remaining `replay_obligations` map (the node's own entry already removed). -/
def processNode (g : Graph) (oracle : PathsOracle) (new : List Nat) (wfuel : Nat)
    (s : Materializations) (rp : List (Nat × List Index)) (ni : Nat)
    (indexes : List Index) :
    Outcome Unit × Materializations × List (Nat × List Index) :=
  match descWalk g s wfuel (g.childrenOf ni) (initialAble g s new ni) with
  | Outcome.panic m => (Outcome.panic m, s, rp)
  | Outcome.err e => (Outcome.err e, s, rp)
  | Outcome.ok able4 =>
      let r := attemptLoop g oracle ni indexes able4 s []
      match r.1 with
      | Outcome.ok _ =>
          if r.2.2.2 then
            let s2 := { r.2.1 with partialM :=
              if (r.2.1).partialM.contains ni then (r.2.1).partialM
              else (r.2.1).partialM ++ [ni] }
            let rp1 := (r.2.2.1).foldl (fun rp p =>
              p.2.foldl (fun rp idx => (mapSetInsert rp p.1 idx).2) rp) rp
            (Outcome.ok (), fulfillObligations ni indexes s2, rp1)
          else
            if (g.nodeD ni).purge then
              (Outcome.panic "assert: full materialization placed beyond materialization frontier",
               r.2.1, rp)
            else (Outcome.ok (), fulfillObligations ni indexes (r.2.1), rp)
      | Outcome.err e => (Outcome.err e, r.2.1, rp)
      | Outcome.panic m => (Outcome.panic m, r.2.1, rp)

/-- Stage 3 driver: walk `ordered`, removing and processing each node's replay
obligations. -/
def stageD (g : Graph) (oracle : PathsOracle) (new : List Nat) (wfuel : Nat) :
    List Nat → Materializations → List (Nat × List Index) →
    Outcome Unit × Materializations × List (Nat × List Index)
  | [], s, rp => (Outcome.ok (), s, rp)
  | ni :: rest, s, rp =>
      match (aremove rp ni).1 with
      | none => stageD g oracle new wfuel rest s rp
      | some indexes =>
          let r := processNode g oracle new wfuel s (aremove rp ni).2 ni indexes
          match r.1 with
          | Outcome.ok _ => stageD g oracle new wfuel rest r.2.1 r.2.2
          | Outcome.err e => (Outcome.err e, r.2)
          | Outcome.panic m => (Outcome.panic m, r.2)

/-- Stack-walk fuel: generous bound for the explicit-stack DFS loops. -/
def wfuelOf (g : Graph) : Nat := (g.nodes.length + 1) ^ 3 + g.edges.length ^ 3 + 1

/-- `Materializations::extend` (materialization/mod.rs lines 113–498):
compute obligations, hoist and record lookup obligations, then run the
partiality analyzer over the reverse topological order; finally
`assert!(replay_obligations.is_empty())`. -/
def extendM (g : Graph) (oracle : PathsOracle) (s : Materializations)
    (new : List Nat) : Outcome Unit × Materializations :=
  match applyLookups g (g.nodes.length + 1) (computeObligations g new).1 s
      (computeObligations g new).2 with
  | Outcome.err e => (Outcome.err e, s)
  | Outcome.panic m => (Outcome.panic m, s)
  | Outcome.ok sr =>
      let r := stageD g oracle new (wfuelOf g) (orderedForExtend g) sr.1 sr.2
      match r.1 with
      | Outcome.ok _ =>
          if r.2.2.isEmpty then (Outcome.ok (), r.2.1)
          else (Outcome.panic "assert: replay_obligations not empty", r.2.1)
      | Outcome.err e => (Outcome.err e, r.2.1)
      | Outcome.panic m => (Outcome.panic m, r.2.1)

/-! ## `Materializations::commit` (materialization/mod.rs lines 521–937) -/

/-- The `any_partial` DFS (lines 538–552) with an explicit pre-order stack:
starting from the worklist, return the first node found (walking incoming
edges) that is partially materialized. -/
def anyPartialUp (s : Materializations) (g : Graph) : Nat → List Nat → Outcome (Option Nat)
  | _, [] => Outcome.ok none
  | 0, _ :: _ => Outcome.panic "nontermination: any_partial"
  | fuel + 1, ni :: rest =>
      if s.partialM.contains ni then Outcome.ok (some ni)
      else anyPartialUp s g fuel (g.parentsOf ni ++ rest)

/-- The I1 scan (lines 554–570): every newly added materialization that is not
partial must have no partial ancestor, otherwise `internal!`. -/
def i1checkList (s : Materializations) (g : Graph) (fuel : Nat) :
    List Nat → Outcome Unit
  | [] => Outcome.ok ()
  | ni :: rest =>
      if s.partialM.contains ni then i1checkList s g fuel rest
      else
        match anyPartialUp s g fuel [ni] with
        | Outcome.ok none => i1checkList s g fuel rest
        | Outcome.ok (some pi) =>
            Outcome.err (RSError.internal ("partial materializations (" ++ toString pi ++
              ") above full materialization (" ++ toString ni ++ ")"))
        | Outcome.err e => Outcome.err e
        | Outcome.panic m => Outcome.panic m

def i1check (s : Materializations) (g : Graph) (fuel : Nat) : Outcome Unit :=
  i1checkList s g fuel (akeys s.added)

/-- One iteration of the frontier-marking loop (lines 574–605): full
materializations are skipped; under `Match(m)` the purge flag is or-ed with a
name match (and nothing else runs); otherwise `SHALLOW_`-named nodes are
purged; the remaining strategies only touch partial nodes. -/
def frontierStep (s : Materializations) (g : Graph) (ni : Nat) : Graph :=
  let n := g.nodeD ni
  if ((alookup s.haveM ni).isSome || n.isReader) && !(s.partialM.contains ni) then g
  else
    match s.strategy with
    | FrontierStrategy.fsMatch m => g.setPurge ni (n.purge || strContains n.name m)
    | _ =>
      if strStarts n.name "SHALLOW_" then g.setPurge ni true
      else if !(s.partialM.contains ni) then g
      else
        match s.strategy with
        | FrontierStrategy.fsAllP => g.setPurge ni true
        | FrontierStrategy.fsReaders => g.setPurge ni (n.purge || n.isReader)
        | _ => g

/-- The frontier-marking stage (lines 573–605). -/
def frontierMark (s : Materializations) (new : List Nat) (g : Graph) : Graph :=
  new.foldl (frontierStep s) g

/-- The `'outer` loop of the partial-overlap check (lines 629–681): for each
index of the partial parent, if it shares some but not all columns with the
child's partial key and the parent does not also hold the child's exact key,
`internal!`. -/
def i6ParentIndexes (hvNode : List Index) (columns : List Nat) (node ni : Nat) :
    List Index → Outcome Unit
  | [] => Outcome.ok ()
  | index2 :: rest =>
      if index2.columns.all (fun c => !(columns.contains c)) then
        i6ParentIndexes hvNode columns node ni rest
      else
        let unshared := match index2.columns.find? (fun c => !(columns.contains c)) with
          | some c => some c
          | none => columns.find? (fun c => !(index2.columns.contains c))
        match unshared with
        | none => i6ParentIndexes hvNode columns node ni rest
        | some _ =>
            if hvNode.any (fun other => other.columns == columns) then
              i6ParentIndexes hvNode columns node ni rest
            else
              Outcome.err (RSError.internal ("partially overlapping partial indices (parent " ++
                toString node ++ ", child " ++ toString ni ++ ")"))

/-- The entry loop of the partial-overlap check (lines 623–687). -/
def i6Entries (s : Materializations) (ni : Nat) : List OptColumnRef → Outcome Unit
  | [] => Outcome.ok ()
  | e :: rest =>
      match e.cols with
      | none => Outcome.ok ()
      | some columns =>
          if s.partialM.contains e.node then
            match alookup s.haveM e.node with
            | none => Outcome.panic "index: self.have[&node]"
            | some hvNode =>
                match i6ParentIndexes hvNode columns e.node ni hvNode with
                | Outcome.ok _ => i6Entries s ni rest
                | Outcome.err e' => Outcome.err e'
                | Outcome.panic m => Outcome.panic m
          else if (alookup s.haveM ni).isSome then Outcome.ok ()
          else i6Entries s ni rest

def i6Paths (s : Materializations) (ni : Nat) : List (List OptColumnRef) → Outcome Unit
  | [] => Outcome.ok ()
  | p :: ps =>
      match i6Entries s ni p with
      | Outcome.ok _ => i6Paths s ni ps
      | Outcome.err e => Outcome.err e
      | Outcome.panic m => Outcome.panic m

def i6Indexes (g : Graph) (oracle : PathsOracle) (s : Materializations) (ni : Nat) :
    List Index → Outcome Unit
  | [] => Outcome.ok ()
  | index :: rest =>
      if index.columns.isEmpty then
        Outcome.panic "unwrap: Vec1::try_from on empty columns"
      else
        match oracle g ni index.columns with
        | Except.error e => Outcome.err e
        | Except.ok paths =>
            match i6Paths s ni paths with
            | Outcome.ok _ => i6Indexes g oracle s ni rest
            | Outcome.err e => Outcome.err e
            | Outcome.panic m => Outcome.panic m

/-- The "no node partial over a subset of its parent's indices" check
(lines 607–691), over the `added` map. -/
def i6check (g : Graph) (oracle : PathsOracle) (s : Materializations) :
    List (Nat × List Index) → Outcome Unit
  | [] => Outcome.ok ()
  | (ni, addedIdxs) :: rest =>
      if !(s.partialM.contains ni) then i6check g oracle s rest
      else
        match i6Indexes g oracle s ni addedIdxs with
        | Outcome.ok _ => i6check g oracle s rest
        | Outcome.err e => Outcome.err e
        | Outcome.panic m => Outcome.panic m

/-- Provenance scan of one shard merger's parent (lines 720–752). -/
def shardPaths (s : Materializations) (col : Nat) :
    List (List (Nat × List (Option Nat))) → Outcome Unit
  | [] => Outcome.ok ()
  | path :: rest =>
      match path.find? (fun p => (alookup s.haveM p.1).isSome) with
      | none =>
          Outcome.err (RSError.internal
            "since bases are materialized, every path must eventually have a materialized node")
      | some (_, cols) =>
          match cols.get? col with
          | none => Outcome.panic "index out of bounds: cols[col]"
          | some none => shardPaths s col rest
          | some (some srcv) =>
              if cols.enum.any (fun p => p.1 != col && p.2 == some srcv) then
                Outcome.err (RSError.internal "attempting to merge sharding by aliased column")
              else shardPaths s col rest

/-- The shard-merger aliasing check (lines 699–755): for each new shard
merger, resolve the parent's sharding column through provenance and reject
aliased copies. `keys::provenance_of` is an oracle (see `ProvenanceOracle`). -/
def shardCheck (g : Graph) (prov : ProvenanceOracle) (s : Materializations) :
    List Nat → Outcome Unit
  | [] => Outcome.ok ()
  | node :: rest =>
      let n := g.nodeD node
      if !n.isShardMerger then shardCheck g prov s rest
      else
        match g.parentsOf node with
        | [] => Outcome.err (RSError.internal "shard mergers must have a parent")
        | parent :: _ =>
            match (g.nodeD parent).shardedByCol with
            | none => shardCheck g prov s rest
            | some col =>
                match prov g parent (List.range n.fieldsLen) with
                | Except.error e => Outcome.err e
                | Except.ok paths =>
                    match shardPaths s col paths with
                    | Outcome.ok _ => shardCheck g prov s rest
                    | Outcome.err e => Outcome.err e
                    | Outcome.panic m => Outcome.panic m

/-- Inner loop of the purge-moving step (lines 763–780): move the `purge`
label of a stateless node to its new materialized parents, which must be
partial (`invariant!`). -/
def purgeMoveParents (new : List Nat) (s : Materializations) :
    List Nat → Graph → Outcome Unit × Graph
  | [], g => (Outcome.ok (), g)
  | pi :: rest, g =>
      if !(new.contains pi) then purgeMoveParents new s rest g
      else if (alookup s.haveM pi).isNone then purgeMoveParents new s rest g
      else if !(s.partialM.contains pi) then
        (Outcome.err (RSError.internal
          "attempting to place full materialization beyond materialization frontier"), g)
      else purgeMoveParents new s rest (g.setPurge pi true)

/-- The purge-moving step (lines 757–782). -/
def purgeMove (new : List Nat) (s : Materializations) :
    List Nat → Graph → Outcome Unit × Graph
  | [], g => (Outcome.ok (), g)
  | ni :: rest, g =>
      if g.purgeOf ni && !((alookup s.haveM ni).isSome || (g.nodeD ni).isReader) then
        let r := purgeMoveParents new s (g.parentsOf ni) g
        match r.1 with
        | Outcome.ok _ => purgeMove new s rest r.2
        | Outcome.err e => (Outcome.err e, r.2)
        | Outcome.panic m => (Outcome.panic m, r.2)
      else purgeMove new s rest g

/-- Initial worklist of the "no non-purge below purge" check (lines 785–792):
the parents of every new materialized-or-reader node that is not purged. -/
def nonPurgeInit (g : Graph) (s : Materializations) (new : List Nat) : List Nat :=
  new.foldl (fun acc ni =>
    if ((g.nodeD ni).isReader || (alookup s.haveM ni).isSome) && !(g.purgeOf ni) then
      acc ++ g.parentsOf ni
    else acc) []

/-- The worklist walk of the "no non-purge below purge" check (lines
793–807). -/
def nonPurgeWalk (g : Graph) (s : Materializations) : Nat → List Nat → Outcome Unit
  | _, [] => Outcome.ok ()
  | 0, _ :: _ => Outcome.panic "nontermination: non_purge walk"
  | fuel + 1, ni :: rest =>
      if g.purgeOf ni then
        Outcome.err (RSError.internal ("found purge node " ++ toString ni ++
          " above non-purge node"))
      else if (alookup s.haveM ni).isSome then nonPurgeWalk g s fuel rest
      else nonPurgeWalk g s fuel (rest ++ g.parentsOf ni)

/-- The child walk of the reindex loop (lines 840–866): making an old
non-materialized node partial is an error if it has old materialized
children. -/
def reindexChildWalk (g : Graph) (s : Materializations) (new : List Nat) (node : Nat) :
    Nat → List Nat → Outcome Unit
  | _, [] => Outcome.ok ()
  | 0, _ :: _ => Outcome.panic "nontermination: reindex child walk"
  | fuel + 1, child :: rest =>
      if new.contains child then reindexChildWalk g s new node fuel rest
      else if ((alookup s.added child).getD []).length != ((alookup s.haveM child).getD []).length then
        Outcome.err (RSError.internal ("attempting to make old non-materialized node (" ++
          toString node ++ ") with child (" ++ toString child ++ ") partial"))
      else reindexChildWalk g s new node fuel (rest ++ g.childrenOf child)

/-- One node of the reindex loop (lines 828–890). The planner invocation
`setup` lives in `materialization/plan.rs`, which is not part of the sources;
modelled from the spec (§4.4, §4.5): it installs replay paths and sends
domain messages, leaving `have`/`added`/`partial` unchanged, and is modelled
as succeeding. -/
def reindexNode (g : Graph) (s : Materializations) (new : List Nat) (wfuel : Nat)
    (node : Nat) : Outcome Unit × Materializations :=
  match (aremove s.added node).1 with
  | none => (Outcome.panic "unwrap: added.remove in reindex", s)
  | some indexOn =>
      let s1 := { s with added := (aremove s.added node).2 }
      match alookup s1.haveM node with
      | none => (Outcome.panic "index: self.have[&node]", s1)
      | some hvN =>
          if setEqB hvN indexOn then
            if s1.partialM.contains node then
              match reindexChildWalk g s1 new node wfuel (g.childrenOf node) with
              | Outcome.ok _ => (Outcome.ok (), s1)
              | Outcome.err e => (Outcome.err e, s1)
              | Outcome.panic m => (Outcome.panic m, s1)
            else (Outcome.ok (), s1)
          else (Outcome.ok (), s1)

def reindexAll (g : Graph) (new : List Nat) (wfuel : Nat) :
    List Nat → Materializations → Outcome Unit × Materializations
  | [], s => (Outcome.ok (), s)
  | node :: rest, s =>
      let r := reindexNode g s new wfuel node
      match r.1 with
      | Outcome.ok _ => reindexAll g new wfuel rest r.2
      | Outcome.err e => (Outcome.err e, r.2)
      | Outcome.panic m => (Outcome.panic m, r.2)

/-- `ready_one` (lines 941–995): a new base must not be partial (`assert!`)
and needs no replay; a stateless non-base node needs nothing; otherwise the
planner (`setup`, modelled from the spec as above) runs. The final `Ready`
message is domain RPC (external) and is modelled as succeeding. -/
def readyOne (g : Graph) (s : Materializations) (ni : Nat) :
    Outcome Unit × Materializations :=
  let n := g.nodeD ni
  if n.isBase then
    if s.partialM.contains ni then (Outcome.panic "assert: partial base", s)
    else (Outcome.ok (), s)
  else (Outcome.ok (), s)

/-- One node of the make loop (lines 893–931). -/
def makeNode (g : Graph) (s : Materializations) (ni : Nat) :
    Outcome Unit × Materializations :=
  match (aremove s.added ni).1 with
  | some idxs =>
      if idxs.isEmpty then
        (Outcome.err (RSError.internal "invariant failed: added index set is empty"),
         { s with added := (aremove s.added ni).2 })
      else readyOne g { s with added := (aremove s.added ni).2 } ni
  | none => readyOne g { s with added := (aremove s.added ni).2 } ni

def makeAll (g : Graph) : List Nat → Materializations → Outcome Unit × Materializations
  | [], s => (Outcome.ok (), s)
  | ni :: rest, s =>
      let r := makeNode g s ni
      match r.1 with
      | Outcome.ok _ => makeAll g rest r.2
      | Outcome.err e => (Outcome.err e, r.2)
      | Outcome.panic m => (Outcome.panic m, r.2)

/-- `Materializations::commit` (materialization/mod.rs lines 526–937): run
`extend`, the I1 scan, frontier marking, the partial-overlap (I6) check, the
shard-merger (I5) check, purge moving, the purge-ordering (I4) check, then the
reindex and make loops, and finally clear `added`. Domain placement and RPC
are external; `&mut self` / `&mut Graph` are modelled by returning the updated
registry and graph in every case, including errors. -/
def commitM (g : Graph) (oracle : PathsOracle) (prov : ProvenanceOracle)
    (s : Materializations) (new : List Nat) :
    Outcome Unit × Materializations × Graph :=
  match (extendM g oracle s new).1 with
  | Outcome.err e => (Outcome.err e, (extendM g oracle s new).2, g)
  | Outcome.panic m => (Outcome.panic m, (extendM g oracle s new).2, g)
  | Outcome.ok _ =>
      let s1 := (extendM g oracle s new).2
      match i1check s1 g (g.nodes.length + 1) with
      | Outcome.err e => (Outcome.err e, s1, g)
      | Outcome.panic m => (Outcome.panic m, s1, g)
      | Outcome.ok _ =>
          let g1 := frontierMark s1 new g
          match i6check g1 oracle s1 s1.added with
          | Outcome.err e => (Outcome.err e, s1, g1)
          | Outcome.panic m => (Outcome.panic m, s1, g1)
          | Outcome.ok _ =>
              match shardCheck g1 prov s1 new with
              | Outcome.err e => (Outcome.err e, s1, g1)
              | Outcome.panic m => (Outcome.panic m, s1, g1)
              | Outcome.ok _ =>
                  let rpm := purgeMove new s1 new g1
                  match rpm.1 with
                  | Outcome.err e => (Outcome.err e, s1, rpm.2)
                  | Outcome.panic m => (Outcome.panic m, s1, rpm.2)
                  | Outcome.ok _ =>
                      match nonPurgeWalk rpm.2 s1 (wfuelOf rpm.2) (nonPurgeInit rpm.2 s1 new) with
                      | Outcome.err e => (Outcome.err e, s1, rpm.2)
                      | Outcome.panic m => (Outcome.panic m, s1, rpm.2)
                      | Outcome.ok _ =>
                          let topoL := (topoOrder rpm.2).filter
                            (fun ni => !(rpm.2.nodeD ni).isSource && !(rpm.2.nodeD ni).isDropped)
                          let makeL := topoL.filter (fun ni => new.contains ni)
                          let reindexL := topoL.filter
                            (fun ni => !(new.contains ni) && (alookup s1.added ni).isSome)
                          let rri := reindexAll rpm.2 new (wfuelOf rpm.2) reindexL s1
                          match rri.1 with
                          | Outcome.err e => (Outcome.err e, rri.2, rpm.2)
                          | Outcome.panic m => (Outcome.panic m, rri.2, rpm.2)
                          | Outcome.ok _ =>
                              let rma := makeAll rpm.2 makeL rri.2
                              match rma.1 with
                              | Outcome.err e => (Outcome.err e, rma.2, rpm.2)
                              | Outcome.panic m => (Outcome.panic m, rma.2, rpm.2)
                              | Outcome.ok _ =>
                                  (Outcome.ok (), { rma.2 with added := [] }, rpm.2)

/-! ## Concrete scenarios used by the theorems below -/

/-- `Index::hash_map(vec![0])`, the default base index. -/
def h0 : Index := Index.hashMap [0]

/-- A path oracle that returns no paths (used where paths are never queried). -/
def emptyOracle : PathsOracle := fun _ _ _ => Except.ok []

/-- A provenance oracle that returns no paths (no shard mergers anywhere). -/
def emptyProv : ProvenanceOracle := fun _ _ _ => Except.ok []

/-- A fresh registry with the given frontier strategy. -/
def freshMat (strat : FrontierStrategy) : Materializations :=
  ⟨[], [], [], true, strat, 0⟩

/-- Scenario W: `Base(1) → Reader(2, key=[0])` (spec §8, S1). -/
def wBase : Node := { kind := NodeKind.baseTable, name := "b", purge := false, globalAddr := 1 }

def wReader : Node :=
  { kind := NodeKind.reader, name := "r", purge := false, globalAddr := 2,
    readerKey := some [0] }

def wGraph : Graph := ⟨[(1, wBase), (2, wReader)], [(1, 2)]⟩

/-- Replay paths of scenario W: the reader's key resolves through the base. -/
def wOracle : PathsOracle := fun _ ni cols =>
  if ni == 2 && cols == [0] then
    Except.ok [[⟨2, some [0]⟩, ⟨1, some [0]⟩]]
  else if ni == 1 && cols == [0] then
    Except.ok [[⟨1, some [0]⟩]]
  else Except.ok []

/-- Scenario X (for C1): an existing partial internal node 5 above a new
internal node 6 that requires full materialization and asks for an index on
itself. -/
def xPartialAnc : Node := { kind := NodeKind.internalOp, name := "A", purge := false, globalAddr := 5 }

def xFullNode : Node :=
  { kind := NodeKind.internalOp, name := "F", purge := false, globalAddr := 6,
    suggested := [(6, h0)], requiresFullMat := true }

def xGraph : Graph := ⟨[(5, xPartialAnc), (6, xFullNode)], [(5, 6)]⟩

def xMat : Materializations := ⟨[(5, [h0])], [], [5], true, FrontierStrategy.fsNone, 0⟩

/-- Scenario Y (for C8/C10): a new stateless internal node named `SHALLOW_x`
below the source. -/
def ySource : Node := { kind := NodeKind.source, name := "source", purge := false, globalAddr := 0 }

def yShallow : Node := { kind := NodeKind.internalOp, name := "SHALLOW_x", purge := false, globalAddr := 1 }

def yGraph : Graph := ⟨[(0, ySource), (1, yShallow)], [(0, 1)]⟩

/-- Scenario Y after commit: node 1's purge flag has been set. -/
def yGraphPurged : Graph := ⟨[(0, ySource), (1, { yShallow with purge := true })], [(0, 1)]⟩

/-- Scenario Z (for C9): node 10 places a lookup obligation on query-through
node 11, whose column 0 has no provenance in its parent 12. -/
def zChild : Node :=
  { kind := NodeKind.internalOp, name := "C", purge := false, globalAddr := 10,
    suggested := [(11, h0)] }

def zQueryThrough : Node :=
  { kind := NodeKind.internalOp, name := "Q", purge := false, globalAddr := 11,
    canQueryThrough := true, parentCols := [(0, [(12, none)])] }

def zBase : Node := { kind := NodeKind.baseTable, name := "P", purge := false, globalAddr := 12 }

def zGraph : Graph := ⟨[(10, zChild), (11, zQueryThrough), (12, zBase)], [(12, 11), (11, 10)]⟩

/-- The index set stored for `k` (`map.get(&k)` defaulted to the empty set). -/
def setlook (m : List (Nat × List Index)) (k : Nat) : List Index :=
  (alookup m k).getD []

/-- Scenario V (for C7's witness): node 2 carries two replay obligations; the
first (`[1]`) yields one clean path, the second (`[0]`) yields a clean first
path and a second path that runs into a generated column (a `None`-columns
entry at node 3). -/
def vOracle : PathsOracle := fun _ ni cols =>
  if ni == 2 && cols == [1] then
    Except.ok [[⟨2, some [1]⟩]]
  else if ni == 2 && cols == [0] then
    Except.ok [[⟨2, some [0]⟩], [⟨2, some [0]⟩, ⟨3, none⟩]]
  else Except.ok []

/-- Scenario V's first obligation index (an ordered index on column 1). -/
def vIdx1 : Index := ⟨IndexType.orderedKind, [1]⟩

/-- Scenario V's candidate node (node 2, an internal operator). -/
def vNode : Node := { kind := NodeKind.internalOp, name := "V", purge := false, globalAddr := 2 }

def vGraph : Graph := ⟨[(2, vNode)], []⟩

/-- A migration plan knowing one domain (index 1) with two shards. -/
def dmpEx : DomainMigrationPlan Nat := ⟨[], [(1, 2)]⟩

/-- The registry scenario X's planning stage (`extend`) produces: node 6 is
newly materialized with the default index, node 5 is still partial. -/
def xExtended : Materializations :=
  ⟨[(5, [h0]), (6, [h0])], [(6, [h0])], [5], true, FrontierStrategy.fsNone, 0⟩

/-- The I1 violation error of scenario X. -/
def xErr : RSError :=
  RSError.internal "partial materializations (5) above full materialization (6)"

/-- The registry scenario W's planning stage produces: base 1 materialized
with `Hash([0])` and recorded in `added`, reader 2 partial. -/
def wExtended : Materializations :=
  ⟨[(1, [h0])], [(1, [h0])], [2], true, FrontierStrategy.fsNone, 0⟩

/-- The registry after scenario W's successful commit (`added` cleared). -/
def wFinal : Materializations :=
  ⟨[(1, [h0])], [], [2], true, FrontierStrategy.fsNone, 0⟩

/-! # Theorems -/

/-- The tag counter after `k` calls is `k` modulo the 64-bit wrap of
`AtomicUsize::fetch_add`. -/
theorem tagGenerator_matAfterCalls (k : Nat) :
    (matAfterCalls k).tagGenerator = k % 2 ^ 64 := by
  induction k with
  | zero => rfl
  | succ k ih =>
      have h1 : (1 : Nat) % 2 ^ 64 = 1 := Nat.mod_eq_of_lt (by norm_num)
      calc (matAfterCalls (k + 1)).tagGenerator
          = ((matAfterCalls k).tagGenerator + 1) % 2 ^ 64 := rfl
        _ = (k % 2 ^ 64 + 1) % 2 ^ 64 := by rw [ih]
        _ = (k % 2 ^ 64 + 1 % 2 ^ 64) % 2 ^ 64 := by rw [h1]
        _ = (k + 1) % 2 ^ 64 := by rw [← Nat.add_mod]

/-- Closed form of the `k`-th allocated tag: the 64-bit counter truncated to
32 bits (`as u32`). -/
theorem tagOfCall_eq (k : Nat) : tagOfCall k = (k % 2 ^ 64) % 2 ^ 32 := by
  show (matAfterCalls k).tagGenerator % 2 ^ 32 = (k % 2 ^ 64) % 2 ^ 32
  rw [tagGenerator_matAfterCalls]

theorem tagOfCall_small (k : Nat) (h : k < 2 ^ 32) : tagOfCall k = k := by
  rw [tagOfCall_eq, Nat.mod_eq_of_lt (lt_trans h (by norm_num)), Nat.mod_eq_of_lt h]

/-- C5, counterexample: call number `2^32` and call number `0` of `next_tag`
are distinct calls on the same `Materializations` value, yet they return the
same tag (the `as u32` cast truncates the counter), so tags are neither unique
nor strictly increasing across all calls. -/
theorem claim_C5_cx : tagOfCall (2 ^ 32) = tagOfCall 0 ∧ (2 ^ 32 : Nat) ≠ 0 := by
  refine ⟨?_, by norm_num⟩
  rw [tagOfCall_eq, tagOfCall_eq]
  norm_num

/-- C5, amended: among the first `2^32` calls to `next_tag`, tags are strictly
increasing (hence pairwise distinct); uniqueness and monotonicity hold only
until the 32-bit truncation of the counter wraps. -/
theorem claim_C5_amended : ∀ i j : Nat, i < j → j < 2 ^ 32 → tagOfCall i < tagOfCall j := by
  intro i j hij hj
  rw [tagOfCall_small i (lt_trans hij hj), tagOfCall_small j hj]
  exact hij

/-- Witness for C5 (amended) at calls 0 and 1. -/
theorem claim_C5_amended_witness : 0 < 1 ∧ 1 < 2 ^ 32 ∧ tagOfCall 0 < tagOfCall 1 :=
  ⟨by norm_num, by norm_num, claim_C5_amended 0 1 (by norm_num) (by norm_num)⟩

/-- C6: enqueueing a message for a domain absent from `valid_domains`, or for
a shard number not strictly below the domain's shard count, fails with
`MigrationUnknownDomain` and leaves the plan (in particular its stored message
list) unchanged. -/
theorem claim_C6 : ∀ (Req : Type) (p : DomainMigrationPlan Req) (d shard : Nat) (req : Req),
    ((∀ ns, alookup p.validDomains d = some ns → ns ≤ shard) →
      addMessageForShard p d shard req =
        (Except.error (RSError.migrationUnknownDomain d (some shard)), p)) ∧
    (alookup p.validDomains d = none →
      addMessage p d req = (Except.error (RSError.migrationUnknownDomain d none), p)) := by
  intro Req p d shard req
  constructor
  · intro h
    unfold addMessageForShard
    cases hv : alookup p.validDomains d with
    | none => simp [hv]
    | some ns =>
        have hle : ¬ shard < ns := Nat.not_lt.2 (h ns hv)
        simp [hv, hle]
  · intro h
    unfold addMessage
    simp [h]

/-- Witness for C6: unknown shard 5 of domain 1, and unknown domain 7. -/
theorem claim_C6_witness :
    addMessageForShard dmpEx 1 5 0 =
      (Except.error (RSError.migrationUnknownDomain 1 (some 5)), dmpEx) ∧
    addMessage dmpEx 7 0 = (Except.error (RSError.migrationUnknownDomain 7 none), dmpEx) :=
  ⟨(claim_C6 Nat dmpEx 1 5 0).1 (by decide),
   (claim_C6 Nat dmpEx 7 5 0).2 (by decide)⟩

/-- C2, counterexample: for the new reader (node 2, view key `[0]`) the
obligation computer records its hash index on its own handle in the *replay*
obligation map — the needs-lookup bit is `false` — and records no lookup
obligation at all, contradicting the claim that the reader's obligation is a
lookup obligation. -/
theorem claim_C2_cx :
    (computeObligations wGraph [2]).1 = [] ∧
    (computeObligations wGraph [2]).2 = [(2, [Index.hashMap [0]])] := by decide

/-- C1, counterexample: committing new node 6 (which requires full
materialization) under the partial ancestor 5 fails the I1 scan, and the
failed `commit` leaves the registry changed: `extend`'s insertions into
`added` (and `have`) are still there. -/
theorem claim_C1_cx :
    (commitM xGraph emptyOracle emptyProv xMat [6]).1.isErrB = true ∧
    (commitM xGraph emptyOracle emptyProv xMat [6]).2.1.added ≠ xMat.added ∧
    (commitM xGraph emptyOracle emptyProv xMat [6]).2.1.haveM ≠ xMat.haveM := by decide

/-- C8, counterexample: a successful commit of the stateless internal node 1
named `SHALLOW_x` (strategy `None`) sets its purge flag, yet the node is
neither a reader nor partially materialized. -/
theorem claim_C8_cx :
    (commitM yGraph emptyOracle emptyProv (freshMat FrontierStrategy.fsNone) [1]).1 = Outcome.ok () ∧
    (commitM yGraph emptyOracle emptyProv (freshMat FrontierStrategy.fsNone) [1]).2.2.purgeOf 1 = true ∧
    (commitM yGraph emptyOracle emptyProv (freshMat FrontierStrategy.fsNone) [1]).2.1.partialM.contains 1 = false ∧
    ((commitM yGraph emptyOracle emptyProv (freshMat FrontierStrategy.fsNone) [1]).2.2.nodeD 1).isReader = false := by
  decide

/-- C9, counterexample: hoisting the lookup obligation of node 10 through the
query-through node 11, whose column 0 does not resolve into parent 12, makes
the obligation computation abort with a panic (`unwrap` on the `map_indices`
result) — it does not return the structured error. -/
theorem claim_C9_cx :
    (extendM zGraph emptyOracle (freshMat FrontierStrategy.fsNone) [10, 11, 12]).1 =
      Outcome.panic "unwrap on map_indices error" ∧
    (extendM zGraph emptyOracle (freshMat FrontierStrategy.fsNone) [10, 11, 12]).1.isErrB = false := by
  decide

/-- C10: the code contradicts the documented behaviour. Node 1 is new, not
fully materialized, and named `SHALLOW_x`; under `FrontierStrategy::Match("zzz")`
a successful commit leaves its purge flag `false` (the `Match` arm `continue`s
before the `SHALLOW_` check runs), while under `FrontierStrategy::None` the
same commit sets it — so the `SHALLOW_` rule does not apply regardless of the
configured strategy. -/
theorem claim_C10_bug :
    (commitM yGraph emptyOracle emptyProv (freshMat (FrontierStrategy.fsMatch "zzz")) [1]).1 = Outcome.ok () ∧
    strStarts (yGraph.nodeD 1).name "SHALLOW_" = true ∧
    alookup (freshMat (FrontierStrategy.fsMatch "zzz")).haveM 1 = none ∧
    (commitM yGraph emptyOracle emptyProv (freshMat (FrontierStrategy.fsMatch "zzz")) [1]).2.2.purgeOf 1 = false ∧
    (commitM yGraph emptyOracle emptyProv (freshMat FrontierStrategy.fsNone) [1]).2.2.purgeOf 1 = true := by
  decide

/-! ### Generic lemmas about the list-based maps -/

theorem foldl_pres {α β : Type} (P : α → Prop) (f : α → β → α)
    (h : ∀ a b, P a → P (f a b)) : ∀ (l : List β) (a : α), P a → P (l.foldl f a)
  | [], _, ha => ha
  | b :: l, a, ha => foldl_pres P f h l (f a b) (h a b ha)

theorem alookup_cons {α : Type} (p : Nat × α) (m : List (Nat × α)) (k : Nat) :
    alookup (p :: m) k = if p.1 == k then some p.2 else alookup m k := by
  unfold alookup
  cases h : p.1 == k <;> simp [List.find?, h]

theorem alookup_append_some {α : Type} {m : List (Nat × α)} {k : Nat} {v : α}
    (l : List (Nat × α)) (h : alookup m k = some v) : alookup (m ++ l) k = some v := by
  induction m with
  | nil => simp [alookup] at h
  | cons p m ih =>
      rw [List.cons_append, alookup_cons]
      rw [alookup_cons] at h
      cases hpk : p.1 == k with
      | true => simpa [hpk] using h
      | false =>
          rw [hpk] at h
          simpa [hpk] using ih (by simpa using h)

theorem alookup_append_none {α : Type} {m : List (Nat × α)} {k : Nat}
    (l : List (Nat × α)) (h : alookup m k = none) : alookup (m ++ l) k = alookup l k := by
  induction m with
  | nil => simp
  | cons p m ih =>
      rw [List.cons_append, alookup_cons]
      rw [alookup_cons] at h
      cases hpk : p.1 == k with
      | true => rw [hpk] at h; simp at h
      | false =>
          rw [hpk] at h
          simpa [hpk] using ih (by simpa using h)

theorem alookup_map_if_eq {α : Type} {m : List (Nat × α)} {k : Nat} {s : α} (v : α)
    (h : alookup m k = some s) :
    alookup (m.map (fun p => if p.1 == k then (p.1, v) else p)) k = some v := by
  induction m with
  | nil => simp [alookup] at h
  | cons p m ih =>
      rw [alookup_cons] at h
      by_cases hpk : p.1 = k
      · have hb : (p.1 == k) = true := by simpa using hpk
        simp only [List.map_cons, hb, if_true]
        rw [alookup_cons]
        simp [hb]
      · have hb : (p.1 == k) = false := by simpa using hpk
        rw [hb] at h
        simp only [Bool.false_eq_true, if_false] at h
        simp only [List.map_cons, hb, Bool.false_eq_true, if_false]
        rw [alookup_cons, hb]
        simp only [Bool.false_eq_true, if_false]
        exact ih h

theorem alookup_map_ne {α : Type} {m : List (Nat × α)} {k k₀ : Nat} (v : α)
    (hne : k₀ ≠ k) :
    alookup (m.map (fun p => if p.1 == k then (p.1, v) else p)) k₀ = alookup m k₀ := by
  induction m with
  | nil => simp
  | cons p m ih =>
      by_cases hpk : p.1 = k
      · have hb : (p.1 == k) = true := by simpa using hpk
        have hb0 : (p.1 == k₀) = false := by
          simp only [beq_eq_false_iff_ne, ne_eq]
          rw [hpk]
          exact fun hc => hne hc.symm
        simp only [List.map_cons, hb, if_true]
        rw [alookup_cons, alookup_cons, hb0]
        simp only [Bool.false_eq_true, if_false]
        exact ih
      · have hb : (p.1 == k) = false := by simpa using hpk
        simp only [List.map_cons, hb, Bool.false_eq_true, if_false]
        rw [alookup_cons, alookup_cons]
        cases hpk0 : p.1 == k₀
        · simp only [Bool.false_eq_true, if_false]
          exact ih
        · simp

theorem mem_setlook_imp {m : List (Nat × List Index)} {k : Nat} {i : Index}
    (h : i ∈ setlook m k) : ∃ s, alookup m k = some s ∧ i ∈ s := by
  unfold setlook at h
  cases hv : alookup m k with
  | none => rw [hv] at h; simp at h
  | some s => rw [hv] at h; exact ⟨s, rfl, h⟩

theorem mem_setInsert_self (s : List Index) (i : Index) : i ∈ (setInsert s i).2 := by
  unfold setInsert
  by_cases h : i ∈ s <;> simp [h]

theorem mem_setInsert_mono {s : List Index} {i₀ : Index} (i : Index)
    (h : i₀ ∈ s) : i₀ ∈ (setInsert s i).2 := by
  unfold setInsert
  by_cases hm : i ∈ s <;> simp [hm, h]

theorem mem_setlook_mapSetInsert_self (m : List (Nat × List Index)) (k : Nat) (i : Index) :
    i ∈ setlook (mapSetInsert m k i).2 k := by
  unfold mapSetInsert
  cases hv : alookup m k with
  | none =>
      show i ∈ setlook (m ++ [(k, [i])]) k
      unfold setlook
      rw [alookup_append_none _ hv, alookup_cons]
      simp
  | some s =>
      show i ∈ setlook (m.map (fun p => if p.1 == k then (p.1, (setInsert s i).2) else p)) k
      unfold setlook
      rw [alookup_map_if_eq _ hv]
      simpa using mem_setInsert_self s i

theorem mem_setlook_mapSetInsert_mono {m : List (Nat × List Index)} {k₀ : Nat} {i₀ : Index}
    (k : Nat) (i : Index) (h : i₀ ∈ setlook m k₀) :
    i₀ ∈ setlook (mapSetInsert m k i).2 k₀ := by
  obtain ⟨s₀, hs₀, hmem⟩ := mem_setlook_imp h
  unfold mapSetInsert
  cases hv : alookup m k with
  | none =>
      show i₀ ∈ setlook (m ++ [(k, [i])]) k₀
      unfold setlook
      rw [alookup_append_some _ hs₀]
      simpa using hmem
  | some s =>
      show i₀ ∈ setlook (m.map (fun p => if p.1 == k then (p.1, (setInsert s i).2) else p)) k₀
      unfold setlook
      by_cases hk : k₀ = k
      · subst hk
        rw [alookup_map_if_eq _ hv]
        rw [hs₀] at hv
        cases hv
        simpa using mem_setInsert_mono i hmem
      · rw [alookup_map_ne _ hk, hs₀]
        simpa using hmem

theorem alookup_ensureKey_ne (m : List (Nat × List Index)) (k x : Nat) (h : x ≠ k) :
    alookup (ensureKey m k) x = alookup m x := by
  unfold ensureKey
  cases hv : alookup m k with
  | some s => rfl
  | none =>
      cases hx : alookup m x with
      | some s => rw [alookup_append_some _ hx]
      | none =>
          rw [alookup_append_none _ hx, alookup_cons]
          have : (k == x) = false := by simp; exact fun hc => h hc.symm
          simp [this, alookup]

theorem mem_setlook_ensureKey {m : List (Nat × List Index)} {k₀ : Nat} {i₀ : Index}
    (k : Nat) (h : i₀ ∈ setlook m k₀) : i₀ ∈ setlook (ensureKey m k) k₀ := by
  obtain ⟨s₀, hs₀, hmem⟩ := mem_setlook_imp h
  unfold ensureKey
  cases hv : alookup m k with
  | some s => unfold setlook; rw [hs₀]; simpa using hmem
  | none =>
      unfold setlook
      rw [alookup_append_some _ hs₀]
      simpa using hmem

/-! ### Obligation-fold lemmas (stage 1 of `extend`) -/

theorem recordObligation_mono_rp {acc : List (Nat × List Index) × List (Nat × List Index)}
    {k₀ : Nat} {i₀ : Index} (t : Nat × Index × Bool) (h : i₀ ∈ setlook acc.2 k₀) :
    i₀ ∈ setlook (recordObligation acc t).2 k₀ := by
  unfold recordObligation
  cases ht : t.2.2
  · rw [if_neg Bool.false_ne_true]
    exact mem_setlook_mapSetInsert_mono _ _ h
  · rw [if_pos rfl]
    exact h

theorem recordObligation_mono_lk {acc : List (Nat × List Index) × List (Nat × List Index)}
    {k₀ : Nat} {i₀ : Index} (t : Nat × Index × Bool) (h : i₀ ∈ setlook acc.1 k₀) :
    i₀ ∈ setlook (recordObligation acc t).1 k₀ := by
  unfold recordObligation
  cases ht : t.2.2
  · rw [if_neg Bool.false_ne_true]
    exact h
  · rw [if_pos rfl]
    exact mem_setlook_mapSetInsert_mono _ _ h

theorem foldl_recordObligation_mem_rp {k₀ : Nat} {i₀ : Index} :
    ∀ (ts : List (Nat × Index × Bool)) (acc : List (Nat × List Index) × List (Nat × List Index)),
    (k₀, i₀, false) ∈ ts → i₀ ∈ setlook (ts.foldl recordObligation acc).2 k₀ := by
  intro ts
  induction ts with
  | nil => intro acc h; simp at h
  | cons t ts ih =>
      intro acc h
      rcases List.mem_cons.1 h with h | h
      · subst h
        refine foldl_pres (fun a => i₀ ∈ setlook a.2 k₀) recordObligation
          (fun a b ha => recordObligation_mono_rp b ha) ts _ ?_
        unfold recordObligation
        simpa using mem_setlook_mapSetInsert_self acc.2 k₀ i₀
      · exact ih _ h

theorem foldl_recordObligation_mem_lk {k₀ : Nat} {i₀ : Index} :
    ∀ (ts : List (Nat × Index × Bool)) (acc : List (Nat × List Index) × List (Nat × List Index)),
    (k₀, i₀, true) ∈ ts → i₀ ∈ setlook (ts.foldl recordObligation acc).1 k₀ := by
  intro ts
  induction ts with
  | nil => intro acc h; simp at h
  | cons t ts ih =>
      intro acc h
      rcases List.mem_cons.1 h with h | h
      · subst h
        refine foldl_pres (fun a => i₀ ∈ setlook a.1 k₀) recordObligation
          (fun a b ha => recordObligation_mono_lk b ha) ts _ ?_
        unfold recordObligation
        simpa using mem_setlook_mapSetInsert_self acc.1 k₀ i₀
      · exact ih _ h

theorem computeObligations_mem_rp {g : Graph} {new : List Nat} {ni k₀ : Nat} {i₀ : Index}
    (hni : ni ∈ new) (hc : (k₀, i₀, false) ∈ nodeIndices g ni) :
    i₀ ∈ setlook (computeObligations g new).2 k₀ := by
  unfold computeObligations
  have step : ∀ (acc : List (Nat × List Index) × List (Nat × List Index)) (x : Nat),
      i₀ ∈ setlook acc.2 k₀ →
      i₀ ∈ setlook ((nodeIndices g x).foldl recordObligation acc).2 k₀ :=
    fun acc x ha =>
      foldl_pres (fun a => i₀ ∈ setlook a.2 k₀) recordObligation
        (fun a b hb => recordObligation_mono_rp b hb) _ acc ha
  suffices h : ∀ (l : List Nat) (acc : List (Nat × List Index) × List (Nat × List Index)),
      ni ∈ l →
      i₀ ∈ setlook (l.foldl (fun acc ni => (nodeIndices g ni).foldl recordObligation acc) acc).2 k₀ from
    h new ([], []) hni
  intro l
  induction l with
  | nil => intro acc h; simp at h
  | cons x l ih =>
      intro acc h
      rcases List.mem_cons.1 h with h | h
      · subst h
        simp only [List.foldl_cons]
        exact foldl_pres (fun a => i₀ ∈ setlook a.2 k₀) _ (fun a b ha => step a b ha) l _
          (foldl_recordObligation_mem_rp _ acc hc)
      · exact ih _ h

theorem computeObligations_mem_lk {g : Graph} {new : List Nat} {ni k₀ : Nat} {i₀ : Index}
    (hni : ni ∈ new) (hc : (k₀, i₀, true) ∈ nodeIndices g ni) :
    i₀ ∈ setlook (computeObligations g new).1 k₀ := by
  unfold computeObligations
  have step : ∀ (acc : List (Nat × List Index) × List (Nat × List Index)) (x : Nat),
      i₀ ∈ setlook acc.1 k₀ →
      i₀ ∈ setlook ((nodeIndices g x).foldl recordObligation acc).1 k₀ :=
    fun acc x ha =>
      foldl_pres (fun a => i₀ ∈ setlook a.1 k₀) recordObligation
        (fun a b hb => recordObligation_mono_lk b hb) _ acc ha
  suffices h : ∀ (l : List Nat) (acc : List (Nat × List Index) × List (Nat × List Index)),
      ni ∈ l →
      i₀ ∈ setlook (l.foldl (fun acc ni => (nodeIndices g ni).foldl recordObligation acc) acc).1 k₀ from
    h new ([], []) hni
  intro l
  induction l with
  | nil => intro acc h; simp at h
  | cons x l ih =>
      intro acc h
      rcases List.mem_cons.1 h with h | h
      · subst h
        simp only [List.foldl_cons]
        exact foldl_pres (fun a => i₀ ∈ setlook a.1 k₀) _ (fun a b ha => step a b ha) l _
          (foldl_recordObligation_mem_lk _ acc hc)
      · exact ih _ h

/-- C2, amended: a new reader with a set view key contributes exactly one
obligation, on its own handle, with its key columns as a hash index — but with
the needs-lookup bit `false`, so it is recorded among the *replay*
obligations, not the lookup obligations. -/
theorem claim_C2_amended :
    ∀ (g : Graph) (new : List Nat) (ni : Nat) (n : Node) (k : List Nat),
    g.node? ni = some n →
    n.kind = NodeKind.reader →
    n.readerKey = some k →
    ni ∈ new →
    nodeIndices g ni = [(ni, Index.hashMap k, false)] ∧
    Index.hashMap k ∈ setlook (computeObligations g new).2 ni := by
  intro g new ni n k hn hk hr hmem
  have hD : g.nodeD ni = n := by
    show (g.node? ni).getD missingNode = n
    rw [hn]
    rfl
  have h1 : nodeIndices g ni = [(ni, Index.hashMap k, false)] := by
    unfold nodeIndices
    rw [hD]
    have hrd : n.isReader = true := by simp [Node.isReader, hk]
    simp [hrd, hr]
  refine ⟨h1, computeObligations_mem_rp hmem ?_⟩
  rw [h1]
  exact List.mem_singleton.2 rfl

/-- Witness for C2 (amended) at scenario W's reader. -/
theorem claim_C2_amended_witness :
    nodeIndices wGraph 2 = [(2, Index.hashMap [0], false)] ∧
    Index.hashMap [0] ∈ setlook (computeObligations wGraph [1, 2]).2 2 :=
  claim_C2_amended wGraph [1, 2] 2 wReader [0] (by decide) (by decide) (by decide)
    (by decide)

/-- Helper: when `extend` succeeds and the I1 scan fails, `commit` stops there,
returning the scan's error, the post-`extend` registry, and the untouched
graph. -/
theorem commit_err_at_i1 (g : Graph) (oracle : PathsOracle) (prov : ProvenanceOracle)
    (s sE : Materializations) (new : List Nat) (u : Unit) (e : RSError)
    (hx : extendM g oracle s new = (Outcome.ok u, sE))
    (hi : i1check sE g (g.nodes.length + 1) = Outcome.err e) :
    commitM g oracle prov s new = (Outcome.err e, sE, g) := by
  unfold commitM
  rw [hx]
  simp [hi]

/-- Helper: same as `commit_err_at_i1` for a panicking scan. -/
theorem commit_panic_at_i1 (g : Graph) (oracle : PathsOracle) (prov : ProvenanceOracle)
    (s sE : Materializations) (new : List Nat) (u : Unit) (m : String)
    (hx : extendM g oracle s new = (Outcome.ok u, sE))
    (hi : i1check sE g (g.nodes.length + 1) = Outcome.panic m) :
    commitM g oracle prov s new = (Outcome.panic m, sE, g) := by
  unfold commitM
  rw [hx]
  simp [hi]

/-- C1, amended: `commit` does not roll back on failure. When the planning
stage (`extend`) succeeds and the full-above-partial (I1) scan then fails,
`commit` returns that error with the graph untouched and the registry exactly
as `extend` left it — which, as the counterexample shows, can differ from the
registry before the call. -/
theorem claim_C1_amended (g : Graph) (oracle : PathsOracle) (prov : ProvenanceOracle)
    (s sE : Materializations) (new : List Nat) (u : Unit) (e : RSError)
    (hx : extendM g oracle s new = (Outcome.ok u, sE))
    (hi : i1check sE g (g.nodes.length + 1) = Outcome.err e) :
    commitM g oracle prov s new = (Outcome.err e, sE, g) :=
  commit_err_at_i1 g oracle prov s sE new u e hx hi

/-- Witness for C1 (amended): scenario X evaluated. -/
theorem claim_C1_amended_witness :
    commitM xGraph emptyOracle emptyProv xMat [6] = (Outcome.err xErr, xExtended, xGraph) :=
  claim_C1_amended xGraph emptyOracle emptyProv xMat xExtended [6] () xErr
    (by decide) (by decide)

/-- C9, amended: `map_indices` itself returns the structured error naming the
node (`global_addr`), the ancestor, and the first unresolved column whenever
`parent_columns` cannot resolve a column of an index being remapped; but the
hoisting loop in `extend` calls `.unwrap()` on that result, so during hoisting
of a lookup obligation through a query-through node the failure is a panic,
not a returned error. -/
theorem claim_C9_amended :
    ∀ (n : Node) (parent : Nat) (ityp : IndexType) (preC : List Nat) (c : Nat)
      (postC : List Nat) (restIdx : List Index),
    n.isInternal = true →
    (∀ c' ∈ preC,
      (((n.parentColumns c').find? (fun ac => ac.1 == parent)).bind (fun ac => ac.2)).isSome = true) →
    ((n.parentColumns c).find? (fun ac => ac.1 == parent)).bind (fun ac => ac.2) = none →
    mapIndices n parent (Index.mk ityp (preC ++ c :: postC) :: restIdx) =
      Outcome.err (RSError.resolveFailed n.globalAddr parent c) ∧
    (∀ (g : Graph) (hv : List (Nat × List Index)) (mi fuel : Nat),
      g.nodeD mi = n → alookup hv mi = none → n.canQueryThrough = true →
      g.parentsOf mi = [parent] →
      hoistLoop g hv (fuel + 1) mi (Index.mk ityp (preC ++ c :: postC) :: restIdx) =
        Outcome.panic "unwrap on map_indices error") := by
  intro n parent ityp preC c postC restIdx hint hpre hc
  have hfail : mapColsList n parent (preC ++ c :: postC) =
      Outcome.err (RSError.resolveFailed n.globalAddr parent c) := by
    induction preC with
    | nil =>
        simp only [List.nil_append, mapColsList]
        unfold mapCol
        simp [hint, hc]
    | cons c' preC' ih =>
        have h' := hpre c' (List.mem_cons_self _ _)
        obtain ⟨rc, hrc⟩ := Option.isSome_iff_exists.1 h'
        have hok : mapCol n parent c' = Outcome.ok rc := by
          unfold mapCol
          simp [hint, hrc]
        simp only [List.cons_append, mapColsList]
        rw [hok]
        simp only [List.append_eq]
        rw [ih (fun x hx => hpre x (List.mem_cons_of_mem _ hx))]
  have hmap : mapIndices n parent (Index.mk ityp (preC ++ c :: postC) :: restIdx) =
      Outcome.err (RSError.resolveFailed n.globalAddr parent c) := by
    simp [mapIndices, hfail]
  refine ⟨hmap, ?_⟩
  intro g hv mi fuel hD hhv hq hp
  show hoistLoop g hv (fuel + 1) mi (Index.mk ityp (preC ++ c :: postC) :: restIdx) =
    Outcome.panic "unwrap on map_indices error"
  unfold hoistLoop
  simp [hhv, hD, hint, hq, hp, hmap, Node.isInternal] at *
  simp [hhv, hD, hint, hq, hp, hmap]

/-- Witness for C9 (amended): scenario Z's query-through node 11 over
parent 12 with the unresolvable column 0. -/
theorem claim_C9_amended_witness :
    mapIndices zQueryThrough 12 [h0] = Outcome.err (RSError.resolveFailed 11 12 0) ∧
    hoistLoop zGraph [] 3 11 [h0] = Outcome.panic "unwrap on map_indices error" :=
  ⟨(claim_C9_amended zQueryThrough 12 IndexType.hashKind [] 0 [] [] rfl
      (fun c' hc' => absurd hc' (List.not_mem_nil c')) (by decide)).1,
   (claim_C9_amended zQueryThrough 12 IndexType.hashKind [] 0 [] [] rfl
      (fun c' hc' => absurd hc' (List.not_mem_nil c')) (by decide)).2 zGraph [] 11 2
      (by decide) rfl rfl (by decide)⟩

/-! ### The I1 scan (for C3) -/

theorem anyPartialUp_no_err (s : Materializations) (g : Graph) :
    ∀ (fuel : Nat) (l : List Nat) (e : RSError), anyPartialUp s g fuel l ≠ Outcome.err e := by
  intro fuel
  induction fuel with
  | zero => intro l e; cases l <;> simp [anyPartialUp]
  | succ fuel ih =>
      intro l e
      cases l with
      | nil => simp [anyPartialUp]
      | cons ni rest =>
          simp only [anyPartialUp]
          cases hc : s.partialM.contains ni
          · rw [if_neg Bool.false_ne_true]
            exact ih _ e
          · rw [if_pos rfl]
            simp

theorem i1checkList_ok {s : Materializations} {g : Graph} {fuel : Nat} :
    ∀ (l : List Nat), i1checkList s g fuel l = Outcome.ok () →
    ∀ ni ∈ l, s.partialM.contains ni = false →
      anyPartialUp s g fuel [ni] = Outcome.ok none := by
  intro l
  induction l with
  | nil => intro _ ni h; simp at h
  | cons x l ih =>
      intro hok ni hmem hnp
      rcases List.mem_cons.1 hmem with rfl | hmem'
      · simp only [i1checkList] at hok
        rw [hnp, if_neg Bool.false_ne_true] at hok
        cases ha : anyPartialUp s g fuel [ni] with
        | ok o =>
            cases o with
            | none => rfl
            | some pi => rw [ha] at hok; simp at hok
        | err e => exact absurd ha (anyPartialUp_no_err s g fuel [ni] e)
        | panic m => rw [ha] at hok; simp at hok
      · simp only [i1checkList] at hok
        cases hcx : s.partialM.contains x
        · rw [hcx, if_neg Bool.false_ne_true] at hok
          cases ha : anyPartialUp s g fuel [x] with
          | ok o =>
              cases o with
              | none => rw [ha] at hok; exact ih hok ni hmem' hnp
              | some pi => rw [ha] at hok; simp at hok
          | err e => exact absurd ha (anyPartialUp_no_err s g fuel [x] e)
          | panic m => rw [ha] at hok; simp at hok
        · rw [hcx, if_pos rfl] at hok
          exact ih hok ni hmem' hnp

theorem i1checkList_err {s : Materializations} {g : Graph} {fuel : Nat} :
    ∀ (l : List Nat),
    (∀ x ∈ l, ∀ m, anyPartialUp s g fuel [x] ≠ Outcome.panic m) →
    (∃ ni ∈ l, s.partialM.contains ni = false ∧
      ∃ pi, anyPartialUp s g fuel [ni] = Outcome.ok (some pi)) →
    ∃ msg, i1checkList s g fuel l = Outcome.err (RSError.internal msg) := by
  intro l
  induction l with
  | nil =>
      intro _ hviol
      obtain ⟨ni, hmem, _⟩ := hviol
      simp at hmem
  | cons x l ih =>
      intro hnp hviol
      simp only [i1checkList]
      cases hcx : s.partialM.contains x
      · rw [if_neg Bool.false_ne_true]
        cases ha : anyPartialUp s g fuel [x] with
        | ok o =>
            cases o with
            | some pi => exact ⟨_, rfl⟩
            | none =>
                refine ih (fun y hy => hnp y (List.mem_cons_of_mem _ hy)) ?_
                obtain ⟨ni, hmem, hni, pi, hpi⟩ := hviol
                rcases List.mem_cons.1 hmem with rfl | hmem'
                · rw [ha] at hpi; simp at hpi
                · exact ⟨ni, hmem', hni, pi, hpi⟩
        | err e => exact absurd ha (anyPartialUp_no_err s g fuel [x] e)
        | panic m => exact absurd ha (hnp x (List.mem_cons_self _ _) m)
      · rw [if_pos rfl]
        refine ih (fun y hy => hnp y (List.mem_cons_of_mem _ hy)) ?_
        obtain ⟨ni, hmem, hni, pi, hpi⟩ := hviol
        rcases List.mem_cons.1 hmem with rfl | hmem'
        · rw [hcx] at hni; simp at hni
        · exact ⟨ni, hmem', hni, pi, hpi⟩

/-- C3: after every successful commit, no newly added materialization that is
not partial has a partially materialized ancestor (the `any_partial` DFS over
incoming edges finds none); and whenever the scan does find a partial ancestor
of a newly added full materialization (and no scan runs out of fuel), `commit`
fails with the internal `GraphInvariantViolated`-style error and performs no
further stage. -/
theorem claim_C3 :
    ∀ (g : Graph) (oracle : PathsOracle) (prov : ProvenanceOracle) (s sE : Materializations)
      (new : List Nat) (u : Unit),
    extendM g oracle s new = (Outcome.ok u, sE) →
    ((∀ (s' : Materializations) (g' : Graph),
        commitM g oracle prov s new = (Outcome.ok (), s', g') →
        ∀ ni ∈ akeys sE.added, sE.partialM.contains ni = false →
          anyPartialUp sE g (g.nodes.length + 1) [ni] = Outcome.ok none) ∧
     ((∀ x ∈ akeys sE.added, ∀ m,
         anyPartialUp sE g (g.nodes.length + 1) [x] ≠ Outcome.panic m) →
      (∃ ni ∈ akeys sE.added, sE.partialM.contains ni = false ∧
        ∃ pi, anyPartialUp sE g (g.nodes.length + 1) [ni] = Outcome.ok (some pi)) →
      ∃ msg, commitM g oracle prov s new =
        (Outcome.err (RSError.internal msg), sE, g))) := by
  intro g oracle prov s sE new u hx
  constructor
  · intro s' g' hc ni hmem hnp
    have hok : i1check sE g (g.nodes.length + 1) = Outcome.ok () := by
      cases hi : i1check sE g (g.nodes.length + 1) with
      | ok v => cases v; rfl
      | err e =>
          rw [commit_err_at_i1 g oracle prov s sE new u e hx hi] at hc
          simp at hc
      | panic m =>
          rw [commit_panic_at_i1 g oracle prov s sE new u m hx hi] at hc
          simp at hc
    exact i1checkList_ok (akeys sE.added) hok ni hmem hnp
  · intro hnp hviol
    obtain ⟨msg, herr⟩ := i1checkList_err (akeys sE.added) hnp hviol
    exact ⟨msg, commit_err_at_i1 g oracle prov s sE new u _ hx herr⟩

/-- Witness for C3 at scenario W: base 1 is the newly added non-partial
materialization, and the scan of its ancestors finds no partial node. -/
theorem claim_C3_witness :
    anyPartialUp wExtended wGraph 3 [1] = Outcome.ok none :=
  (claim_C3 wGraph wOracle emptyProv (freshMat FrontierStrategy.fsNone) wExtended [1, 2] ()
      (by decide)).1 wFinal wGraph (by decide) 1 (by decide) (by decide)

/-! ### Hoisting and stage-2 lemmas (for C4) -/

theorem alookup_mem {α : Type} {m : List (Nat × α)} {k : Nat} {v : α}
    (h : alookup m k = some v) : (k, v) ∈ m := by
  induction m with
  | nil => simp [alookup] at h
  | cons p m ih =>
      rw [alookup_cons] at h
      by_cases hpk : p.1 = k
      · have hb : (p.1 == k) = true := by simpa using hpk
        rw [hb, if_pos rfl] at h
        have hv : v = p.2 := by simpa using h.symm
        have : p = (k, v) := by
          cases p
          simp only at hpk hv
          rw [hpk, hv]
        rw [← this]
        exact List.mem_cons_self _ _
      · have hb : (p.1 == k) = false := by simpa using hpk
        rw [hb, if_neg Bool.false_ne_true] at h
        exact List.mem_cons_of_mem _ (ih h)

/-- The hoisting loop stops immediately at a base node (a base is never
internal), returning the obligation unchanged. -/
theorem hoistLoop_base (g : Graph) (hv : List (Nat × List Index)) (fuel ni : Nat)
    (idxs : List Index) (hb : (g.nodeD ni).isBase = true) :
    hoistLoop g hv (fuel + 1) ni idxs = Outcome.ok (ni, idxs) := by
  have hk : (g.nodeD ni).kind = NodeKind.baseTable := by
    have := hb
    unfold Node.isBase at this
    simpa using this
  have hint : (g.nodeD ni).isInternal = false := by
    unfold Node.isInternal
    rw [hk]
    rfl
  unfold hoistLoop
  cases hhv : (alookup hv ni).isSome
  · simp [hhv, hint]
  · simp [hhv]

theorem recordHoisted_haveM_mono (mi : Nat) {k₀ : Nat} {i₀ : Index} :
    ∀ (idxs : List Index) (s : Materializations) (rp : List (Nat × List Index)),
    i₀ ∈ setlook s.haveM k₀ → i₀ ∈ setlook (recordHoisted mi s rp idxs).1.haveM k₀ := by
  intro idxs
  induction idxs with
  | nil => intro s rp h; exact h
  | cons c rest ih =>
      intro s rp h
      simp only [recordHoisted]
      cases hfr : (mapSetInsert s.haveM mi c).1
      · rw [if_neg Bool.false_ne_true]
        exact ih _ _ (mem_setlook_mapSetInsert_mono _ _ h)
      · rw [if_pos rfl]
        exact ih _ _ (mem_setlook_mapSetInsert_mono _ _ h)

theorem recordHoisted_mem_self (mi : Nat) {i : Index} :
    ∀ (idxs : List Index) (s : Materializations) (rp : List (Nat × List Index)),
    i ∈ idxs → i ∈ setlook (recordHoisted mi s rp idxs).1.haveM mi := by
  intro idxs
  induction idxs with
  | nil => intro s rp h; simp at h
  | cons c rest ih =>
      intro s rp h
      rcases List.mem_cons.1 h with rfl | h'
      · simp only [recordHoisted]
        cases hfr : (mapSetInsert s.haveM mi i).1
        · rw [if_neg Bool.false_ne_true]
          exact recordHoisted_haveM_mono mi rest _ _
            (by simpa using mem_setlook_mapSetInsert_self s.haveM mi i)
        · rw [if_pos rfl]
          exact recordHoisted_haveM_mono mi rest _ _
            (by simpa using mem_setlook_mapSetInsert_self s.haveM mi i)
      · simp only [recordHoisted]
        cases hfr : (mapSetInsert s.haveM mi c).1
        · rw [if_neg Bool.false_ne_true]
          exact ih _ _ h'
        · rw [if_pos rfl]
          exact ih _ _ h'

theorem applyLookups_haveM_mono {g : Graph} {fuel : Nat} {k₀ : Nat} {i₀ : Index} :
    ∀ (entries : List (Nat × List Index)) (s : Materializations)
      (rp : List (Nat × List Index)) (s' : Materializations) (rp' : List (Nat × List Index)),
    applyLookups g fuel entries s rp = Outcome.ok (s', rp') →
    i₀ ∈ setlook s.haveM k₀ → i₀ ∈ setlook s'.haveM k₀ := by
  intro entries
  induction entries with
  | nil =>
      intro s rp s' rp' h hm
      simp only [applyLookups] at h
      cases h
      exact hm
  | cons e rest ih =>
      intro s rp s' rp' h hm
      obtain ⟨x, xidxs⟩ := e
      simp only [applyLookups] at h
      cases hh : hoistLoop g s.haveM fuel x xidxs with
      | ok mid =>
          rw [hh] at h
          exact ih _ _ _ _ h (recordHoisted_haveM_mono mid.1 mid.2 s rp hm)
      | err e' => rw [hh] at h; simp at h
      | panic m => rw [hh] at h; simp at h

/-- If a base node has a lookup obligation containing index `i` in the
obligation list, stage 2 records `i` in `have[ni]`. -/
theorem applyLookups_base_mem {g : Graph} {f : Nat} {ni : Nat} {i : Index}
    (hb : (g.nodeD ni).isBase = true) :
    ∀ (entries : List (Nat × List Index)) (s : Materializations)
      (rp : List (Nat × List Index)) (s' : Materializations) (rp' : List (Nat × List Index)),
    applyLookups g (f + 1) entries s rp = Outcome.ok (s', rp') →
    (∃ idxs, (ni, idxs) ∈ entries ∧ i ∈ idxs) →
    i ∈ setlook s'.haveM ni := by
  intro entries
  induction entries with
  | nil =>
      intro s rp s' rp' _ hex
      obtain ⟨idxs, hmem, _⟩ := hex
      simp at hmem
  | cons e rest ih =>
      intro s rp s' rp' h hex
      obtain ⟨x, xidxs⟩ := e
      obtain ⟨idxs, hmem, hi⟩ := hex
      rcases List.mem_cons.1 hmem with heq | hmem'
      · have hx : ni = x ∧ idxs = xidxs := by
          injection heq with h1 h2
          exact ⟨h1, h2⟩
        obtain ⟨rfl, rfl⟩ := hx
        simp only [applyLookups] at h
        rw [hoistLoop_base g s.haveM f ni idxs hb] at h
        exact applyLookups_haveM_mono rest _ _ _ _ h
          (recordHoisted_mem_self ni idxs s rp hi)
      · simp only [applyLookups] at h
        cases hh : hoistLoop g s.haveM (f + 1) x xidxs with
        | ok mid =>
            rw [hh] at h
            exact ih _ _ _ _ h ⟨idxs, hmem', hi⟩
        | err e' => rw [hh] at h; simp at h
        | panic m => rw [hh] at h; simp at h

/-! ### Stage-3 monotonicity: the partiality analyzer only grows `have`
and only touches `partial` at its own node (for C4, C7, C8) -/

theorem pathEntriesLoop_haveM_mono (ityp : IndexType) (nskip : Nat) {k₀ : Nat} {i₀ : Index} :
    ∀ (entries : List OptColumnRef) (i : Nat) (s : Materializations)
      (add : List (Nat × List Index)),
    i₀ ∈ setlook s.haveM k₀ →
    i₀ ∈ setlook (pathEntriesLoop ityp nskip entries i s add).1.haveM k₀ := by
  intro entries
  induction entries with
  | nil => intro i s add h; exact h
  | cons e rest ih =>
      intro i s add h
      simp only [pathEntriesLoop]
      cases hc : e.cols with
      | none => exact h
      | some cols =>
          cases hl : alookup s.haveM e.node with
          | some m => exact h
          | none =>
              cases hcond : (i == 0 && nskip == 0)
              · exact ih (i + 1) s add h
              · exact ih (i + 1) _ _ (mem_setlook_ensureKey e.node h)

theorem pathEntriesLoop_partialM (ityp : IndexType) (nskip : Nat) :
    ∀ (entries : List OptColumnRef) (i : Nat) (s : Materializations)
      (add : List (Nat × List Index)),
    (pathEntriesLoop ityp nskip entries i s add).1.partialM = s.partialM := by
  intro entries
  induction entries with
  | nil => intro i s add; rfl
  | cons e rest ih =>
      intro i s add
      simp only [pathEntriesLoop]
      cases hc : e.cols with
      | none => rfl
      | some cols =>
          cases hl : alookup s.haveM e.node with
          | some m => rfl
          | none =>
              cases hcond : (i == 0 && nskip == 0)
              · exact ih (i + 1) s add
              · exact ih (i + 1) _ _

theorem processOnePath_haveM_mono (ityp : IndexType) (ni : Nat) (p : List OptColumnRef)
    {k₀ : Nat} {i₀ : Index} (s : Materializations) (add : List (Nat × List Index))
    (h : i₀ ∈ setlook s.haveM k₀) :
    i₀ ∈ setlook (processOnePath ityp ni p s add).2.1.haveM k₀ := by
  cases p with
  | nil => exact h
  | cons e0 rest => exact pathEntriesLoop_haveM_mono ityp _ _ 0 s add h

theorem processOnePath_partialM (ityp : IndexType) (ni : Nat) (p : List OptColumnRef)
    (s : Materializations) (add : List (Nat × List Index)) :
    (processOnePath ityp ni p s add).2.1.partialM = s.partialM := by
  cases p with
  | nil => rfl
  | cons e0 rest => exact pathEntriesLoop_partialM ityp _ _ 0 s add

theorem processPathsLoop_haveM_mono (ityp : IndexType) (ni : Nat) {k₀ : Nat} {i₀ : Index} :
    ∀ (paths : List (List OptColumnRef)) (s : Materializations)
      (add : List (Nat × List Index)),
    i₀ ∈ setlook s.haveM k₀ →
    i₀ ∈ setlook (processPathsLoop ityp ni paths s add).2.1.haveM k₀ := by
  intro paths
  induction paths with
  | nil => intro s add h; exact h
  | cons p ps ih =>
      intro s add h
      simp only [processPathsLoop]
      have hm := processOnePath_haveM_mono ityp ni p s add h
      cases ho : (processOnePath ityp ni p s add).1 with
      | ok u =>
          cases hb : (processOnePath ityp ni p s add).2.2.2
          · exact ih _ _ hm
          · exact hm
      | err e => exact hm
      | panic m => exact hm

theorem processPathsLoop_partialM (ityp : IndexType) (ni : Nat) :
    ∀ (paths : List (List OptColumnRef)) (s : Materializations)
      (add : List (Nat × List Index)),
    (processPathsLoop ityp ni paths s add).2.1.partialM = s.partialM := by
  intro paths
  induction paths with
  | nil => intro s add; rfl
  | cons p ps ih =>
      intro s add
      simp only [processPathsLoop]
      have hp := processOnePath_partialM ityp ni p s add
      cases ho : (processOnePath ityp ni p s add).1 with
      | ok u =>
          cases hb : (processOnePath ityp ni p s add).2.2.2
          · exact (ih _ _).trans hp
          · exact hp
      | err e => exact hp
      | panic m => exact hp

theorem attemptLoop_haveM_mono (g : Graph) (oracle : PathsOracle) (ni : Nat)
    {k₀ : Nat} {i₀ : Index} :
    ∀ (indexes : List Index) (able : Bool) (s : Materializations)
      (add : List (Nat × List Index)),
    i₀ ∈ setlook s.haveM k₀ →
    i₀ ∈ setlook (attemptLoop g oracle ni indexes able s add).2.1.haveM k₀ := by
  intro indexes
  induction indexes with
  | nil => intro able s add h; exact h
  | cons index rest ih =>
      intro able s add h
      simp only [attemptLoop]
      cases hab : able
      · exact h
      · cases hce : index.columns.isEmpty
        · cases hor : oracle g ni index.columns with
          | error e => exact h
          | ok paths =>
              dsimp only []
              have hm := processPathsLoop_haveM_mono index.indexType ni paths s add h
              cases hp : (processPathsLoop index.indexType ni paths s add).1 with
              | ok u =>
                  cases hb : (processPathsLoop index.indexType ni paths s add).2.2.2
                  · exact ih _ _ _ hm
                  · exact hm
              | err e => exact hm
              | panic m => exact hm
        · exact h

theorem attemptLoop_partialM (g : Graph) (oracle : PathsOracle) (ni : Nat) :
    ∀ (indexes : List Index) (able : Bool) (s : Materializations)
      (add : List (Nat × List Index)),
    (attemptLoop g oracle ni indexes able s add).2.1.partialM = s.partialM := by
  intro indexes
  induction indexes with
  | nil => intro able s add; rfl
  | cons index rest ih =>
      intro able s add
      simp only [attemptLoop]
      cases hab : able
      · rfl
      · cases hce : index.columns.isEmpty
        · cases hor : oracle g ni index.columns with
          | error e => rfl
          | ok paths =>
              dsimp only []
              have hp := processPathsLoop_partialM index.indexType ni paths s add
              cases hps : (processPathsLoop index.indexType ni paths s add).1 with
              | ok u =>
                  cases hb : (processPathsLoop index.indexType ni paths s add).2.2.2
                  · exact (ih _ _ _).trans hp
                  · exact hp
              | err e => exact hp
              | panic m => exact hp
        · rfl

theorem fulfill_haveM_mono {ni k₀ : Nat} {i₀ : Index} (indexes : List Index)
    (s : Materializations) (h : i₀ ∈ setlook s.haveM k₀) :
    i₀ ∈ setlook (fulfillObligations ni indexes s).haveM k₀ := by
  unfold fulfillObligations
  cases hv : alookup s.haveM ni with
  | none => exact h
  | some m =>
      refine foldl_pres (fun t => i₀ ∈ setlook t.haveM k₀) _ ?_ indexes s h
      intro a b ha
      dsimp only []
      cases hfr : ((mapSetInsert a.haveM ni b).1 || a.partialM.contains ni)
      · exact mem_setlook_mapSetInsert_mono _ _ ha
      · exact mem_setlook_mapSetInsert_mono _ _ ha

theorem fulfill_partialM (ni : Nat) (indexes : List Index) (s : Materializations) :
    (fulfillObligations ni indexes s).partialM = s.partialM := by
  unfold fulfillObligations
  cases hv : alookup s.haveM ni with
  | none => rfl
  | some m =>
      refine foldl_pres (fun t => t.partialM = s.partialM) _ ?_ indexes s rfl
      intro a b ha
      dsimp only []
      cases hfr : ((mapSetInsert a.haveM ni b).1 || a.partialM.contains ni)
      · exact ha
      · exact ha

theorem processNode_haveM_mono (g : Graph) (oracle : PathsOracle) (new : List Nat)
    (wfuel : Nat) {k₀ : Nat} {i₀ : Index} (s : Materializations)
    (rp : List (Nat × List Index)) (ni : Nat) (indexes : List Index)
    (h : i₀ ∈ setlook s.haveM k₀) :
    i₀ ∈ setlook (processNode g oracle new wfuel s rp ni indexes).2.1.haveM k₀ := by
  unfold processNode
  cases hd : descWalk g s wfuel (g.childrenOf ni) (initialAble g s new ni) with
  | panic m => exact h
  | err e => exact h
  | ok able4 =>
      dsimp only []
      have hm := attemptLoop_haveM_mono g oracle ni indexes able4 s [] h
      cases ha : (attemptLoop g oracle ni indexes able4 s []).1 with
      | ok u =>
          cases hb : (attemptLoop g oracle ni indexes able4 s []).2.2.2
          · cases hpu : (g.nodeD ni).purge
            · exact fulfill_haveM_mono indexes _ hm
            · exact hm
          · exact fulfill_haveM_mono indexes _ hm
      | err e => exact hm
      | panic m => exact hm

theorem stageD_haveM_mono (g : Graph) (oracle : PathsOracle) (new : List Nat)
    (wfuel : Nat) {k₀ : Nat} {i₀ : Index} :
    ∀ (l : List Nat) (s : Materializations) (rp : List (Nat × List Index)),
    i₀ ∈ setlook s.haveM k₀ →
    i₀ ∈ setlook (stageD g oracle new wfuel l s rp).2.1.haveM k₀ := by
  intro l
  induction l with
  | nil => intro s rp h; exact h
  | cons ni rest ih =>
      intro s rp h
      simp only [stageD]
      cases hrm : (aremove rp ni).1 with
      | none => exact ih _ _ h
      | some indexes =>
          dsimp only []
          have hm := processNode_haveM_mono g oracle new wfuel s (aremove rp ni).2 ni indexes h
          cases hp1 : (processNode g oracle new wfuel s (aremove rp ni).2 ni indexes).1 with
          | ok u => exact ih _ _ hm
          | err e => exact hm
          | panic m => exact hm

/-! ### Field preservation of the reindex/make loops (for C4, C8) -/

theorem reindexNode_fields (g : Graph) (s : Materializations) (new : List Nat)
    (wfuel : Nat) (node : Nat) :
    (reindexNode g s new wfuel node).2.haveM = s.haveM ∧
    (reindexNode g s new wfuel node).2.partialM = s.partialM := by
  unfold reindexNode
  dsimp only []
  repeat' split
  all_goals exact ⟨rfl, rfl⟩

theorem reindexAll_fields (g : Graph) (new : List Nat) (wfuel : Nat) :
    ∀ (l : List Nat) (s : Materializations),
    (reindexAll g new wfuel l s).2.haveM = s.haveM ∧
    (reindexAll g new wfuel l s).2.partialM = s.partialM := by
  intro l
  induction l with
  | nil => intro s; exact ⟨rfl, rfl⟩
  | cons node rest ih =>
      intro s
      simp only [reindexAll]
      have hf := reindexNode_fields g s new wfuel node
      cases hr : (reindexNode g s new wfuel node).1 with
      | ok u =>
          exact ⟨((ih _).1).trans hf.1, ((ih _).2).trans hf.2⟩
      | err e => exact hf
      | panic m => exact hf

theorem readyOne_fields (g : Graph) (s : Materializations) (ni : Nat) :
    (readyOne g s ni).2.haveM = s.haveM ∧ (readyOne g s ni).2.partialM = s.partialM := by
  unfold readyOne
  dsimp only []
  repeat' split
  all_goals exact ⟨rfl, rfl⟩

theorem makeNode_fields (g : Graph) (s : Materializations) (ni : Nat) :
    (makeNode g s ni).2.haveM = s.haveM ∧ (makeNode g s ni).2.partialM = s.partialM := by
  unfold makeNode
  cases hr : (aremove s.added ni).1 with
  | none => exact readyOne_fields g _ ni
  | some idxs =>
      dsimp only []
      cases he : idxs.isEmpty
      · exact readyOne_fields g _ ni
      · exact ⟨rfl, rfl⟩

theorem makeAll_fields (g : Graph) :
    ∀ (l : List Nat) (s : Materializations),
    (makeAll g l s).2.haveM = s.haveM ∧ (makeAll g l s).2.partialM = s.partialM := by
  intro l
  induction l with
  | nil => intro s; exact ⟨rfl, rfl⟩
  | cons ni rest ih =>
      intro s
      simp only [makeAll]
      have hf := makeNode_fields g s ni
      cases hr : (makeNode g s ni).1 with
      | ok u => exact ⟨((ih _).1).trans hf.1, ((ih _).2).trans hf.2⟩
      | err e => exact hf
      | panic m => exact hf

/-- Helper: a successful `commit` implies the planning stage succeeded, the
final registry keeps the post-`extend` `have`/`partial` sets (`added` is
cleared), and the final graph is the one produced by frontier marking followed
by purge moving. -/
theorem commit_ok_destruct (g : Graph) (oracle : PathsOracle) (prov : ProvenanceOracle)
    (s : Materializations) (new : List Nat) (s' : Materializations) (g' : Graph)
    (hc : commitM g oracle prov s new = (Outcome.ok (), s', g')) :
    (extendM g oracle s new).1 = Outcome.ok () ∧
    s'.haveM = (extendM g oracle s new).2.haveM ∧
    s'.partialM = (extendM g oracle s new).2.partialM ∧
    (purgeMove new (extendM g oracle s new).2 new
      (frontierMark (extendM g oracle s new).2 new g)).1 = Outcome.ok () ∧
    g' = (purgeMove new (extendM g oracle s new).2 new
      (frontierMark (extendM g oracle s new).2 new g)).2 := by
  unfold commitM at hc
  split at hc
  · simp at hc
  · simp at hc
  · rename_i u hx1
    cases u
    dsimp only [] at hc
    split at hc
    · simp at hc
    · simp at hc
    · rename_i v hi
      try dsimp only [] at hc
      split at hc
      · simp at hc
      · simp at hc
      · rename_i v6 h6
        split at hc
        · simp at hc
        · simp at hc
        · rename_i v5 h5
          try dsimp only [] at hc
          split at hc
          · simp at hc
          · simp at hc
          · rename_i vpm hpm
            cases vpm
            split at hc
            · simp at hc
            · simp at hc
            · rename_i vnp hnp
              try dsimp only [] at hc
              split at hc
              · simp at hc
              · simp at hc
              · rename_i vri hri
                try dsimp only [] at hc
                split at hc
                · simp at hc
                · simp at hc
                · rename_i vma hma
                  have hs := congrArg (fun t => t.2.1) hc
                  have hg := congrArg (fun t => t.2.2) hc
                  dsimp only [] at hs hg
                  refine ⟨hx1, ?_, ?_, hpm, hg.symm⟩
                  · rw [← hs]
                    exact ((makeAll_fields _ _ _).1).trans ((reindexAll_fields _ _ _ _ _).1)
                  · rw [← hs]
                    exact ((makeAll_fields _ _ _).2).trans ((reindexAll_fields _ _ _ _ _).2)

/-- Helper: a new base node contributes the default `(ni, Hash([0]), lookup)`
obligation when it suggests nothing. -/
theorem base_contrib {g : Graph} {ni : Nat} {n : Node}
    (hn : g.node? ni = some n) (hkind : n.kind = NodeKind.baseTable)
    (hsug : n.suggested = []) :
    (ni, Index.hashMap [0], true) ∈ nodeIndices g ni := by
  have hD : g.nodeD ni = n := by
    show (g.node? ni).getD missingNode = n
    rw [hn]; rfl
  unfold nodeIndices
  rw [hD]
  have hnr : n.isReader = false := by simp [Node.isReader, hkind]
  have hnb : n.isBase = true := by simp [Node.isBase, hkind]
  simp [hnr, hsug, hnb]

/-- Helper: a successful `extend` leaves a suggestion-less new base node
materialized with the default index `Hash([0])`. -/
theorem extendM_base_mem (g : Graph) (oracle : PathsOracle) (s : Materializations)
    (new : List Nat) (ni : Nat) (n : Node) (u : Unit) (sE : Materializations)
    (hn : g.node? ni = some n) (hkind : n.kind = NodeKind.baseTable)
    (hsug : n.suggested = []) (hmem : ni ∈ new)
    (hx : extendM g oracle s new = (Outcome.ok u, sE)) :
    Index.hashMap [0] ∈ setlook sE.haveM ni := by
  have hD : g.nodeD ni = n := by
    show (g.node? ni).getD missingNode = n
    rw [hn]; rfl
  have hb : (g.nodeD ni).isBase = true := by
    rw [hD]; simp [Node.isBase, hkind]
  have hlk := computeObligations_mem_lk hmem (base_contrib hn hkind hsug)
  obtain ⟨idxs, halk, hii⟩ := mem_setlook_imp hlk
  have hpair := alookup_mem halk
  unfold extendM at hx
  cases hal : applyLookups g (g.nodes.length + 1) (computeObligations g new).1 s
      (computeObligations g new).2 with
  | err e => rw [hal] at hx; simp at hx
  | panic m => rw [hal] at hx; simp at hx
  | ok sr =>
      rw [hal] at hx
      dsimp only [] at hx
      have hm1 : Index.hashMap [0] ∈ setlook sr.1.haveM ni := by
        exact applyLookups_base_mem hb _ s _ sr.1 sr.2 hal ⟨idxs, hpair, hii⟩
      have hm2 := stageD_haveM_mono g oracle new (wfuelOf g) (orderedForExtend g) sr.1 sr.2 hm1
      cases hst : (stageD g oracle new (wfuelOf g) (orderedForExtend g) sr.1 sr.2).1 with
      | err e => rw [hst] at hx; simp at hx
      | panic m => rw [hst] at hx; simp at hx
      | ok v =>
          rw [hst] at hx
          cases hemp : (stageD g oracle new (wfuelOf g) (orderedForExtend g) sr.1 sr.2).2.2.isEmpty
          · rw [hemp] at hx
            simp at hx
          · rw [hemp] at hx
            rw [if_pos rfl] at hx
            have hsE : (stageD g oracle new (wfuelOf g) (orderedForExtend g) sr.1 sr.2).2.1 = sE :=
              congrArg Prod.snd hx
            rw [← hsE]
            exact hm2

/-- C4: a new base node for which no indexing obligation is suggested gets the
default index `Hash([0])` recorded as a lookup obligation, and after a
successful commit the base is materialized with that index (so every base is
materialized with at least one index, I2). -/
theorem claim_C4 (g : Graph) (oracle : PathsOracle) (prov : ProvenanceOracle)
    (s : Materializations) (new : List Nat) (ni : Nat) (n : Node)
    (s' : Materializations) (g' : Graph)
    (hn : g.node? ni = some n) (hkind : n.kind = NodeKind.baseTable)
    (hsug : n.suggested = []) (hmem : ni ∈ new)
    (hc : commitM g oracle prov s new = (Outcome.ok (), s', g')) :
    Index.hashMap [0] ∈ setlook (computeObligations g new).1 ni ∧
    Index.hashMap [0] ∈ setlook s'.haveM ni := by
  refine ⟨computeObligations_mem_lk hmem (base_contrib hn hkind hsug), ?_⟩
  obtain ⟨hx1, hhave, hpart, hpmok, hg⟩ := commit_ok_destruct g oracle prov s new s' g' hc
  have hx : extendM g oracle s new = (Outcome.ok (), (extendM g oracle s new).2) := by
    rw [← hx1]
  have hmm := extendM_base_mem g oracle s new ni n () (extendM g oracle s new).2
    hn hkind hsug hmem hx
  unfold setlook
  unfold setlook at hmm
  rw [hhave]
  exact hmm

/-- Witness for C4 at scenario W: base 1 ends up with `Hash([0])`. -/
theorem claim_C4_witness :
    Index.hashMap [0] ∈ setlook (computeObligations wGraph [1, 2]).1 1 ∧
    Index.hashMap [0] ∈ setlook wFinal.haveM 1 :=
  claim_C4 wGraph wOracle emptyProv (freshMat FrontierStrategy.fsNone) [1, 2] 1 wBase
    wFinal wGraph (by decide) (by decide) (by decide) (by decide) (by decide)

/-! ### The generated-column fallback of the partiality analyzer (for C7) -/

theorem pathEntriesLoop_hits_none (ityp : IndexType) (nskip : Nat) (eN : OptColumnRef)
    (hN : eN.cols = none) :
    ∀ (pre : List OptColumnRef) (post : List OptColumnRef) (i : Nat)
      (s : Materializations) (add : List (Nat × List Index)),
    (∀ e ∈ pre, e.cols ≠ none ∧ alookup s.haveM e.node = none) →
    ((pre.map (fun e => e.node)).Nodup) →
    (pathEntriesLoop ityp nskip (pre ++ eN :: post) i s add).2.2 = true := by
  intro pre
  induction pre with
  | nil =>
      intro post i s add hpre hnd
      simp only [List.nil_append, pathEntriesLoop]
      rw [hN]
  | cons e pre' ih =>
      intro post i s add hpre hnd
      obtain ⟨hcne, hlk⟩ := hpre e (List.mem_cons_self _ _)
      obtain ⟨c, hc⟩ : ∃ c, e.cols = some c := by
        cases hcol : e.cols with
        | none => exact absurd hcol hcne
        | some c => exact ⟨c, rfl⟩
      simp only [List.cons_append, pathEntriesLoop]
      rw [hc]
      dsimp only []
      rw [hlk]
      dsimp only []
      simp only [List.map_cons, List.nodup_cons] at hnd
      have hpre' : ∀ e' ∈ pre', e'.cols ≠ none ∧ alookup s.haveM e'.node = none :=
        fun e' he' => hpre e' (List.mem_cons_of_mem _ he')
      cases hcond : (i == 0 && nskip == 0)
      · rw [if_neg Bool.false_ne_true]
        exact ih post (i + 1) s add hpre' hnd.2
      · rw [if_pos rfl]
        refine ih post (i + 1) _ _ ?_ hnd.2
        intro e' he'
        refine ⟨(hpre' e' he').1, ?_⟩
        have hne : e'.node ≠ e.node := by
          intro hcontra
          exact hnd.1 (hcontra ▸ List.mem_map_of_mem (fun x => x.node) he')
        show alookup (ensureKey s.haveM e.node) e'.node = none
        rw [alookup_ensureKey_ne s.haveM e.node e'.node hne]
        exact (hpre' e' he').2

theorem processOnePath_first_none (ityp : IndexType) (ni : Nat) (e0 : OptColumnRef)
    (tail pre post : List OptColumnRef) (eN : OptColumnRef)
    (s : Materializations) (add : List (Nat × List Index))
    (hsplit : (if e0.node == ni then tail else e0 :: tail) = pre ++ eN :: post)
    (hN : eN.cols = none)
    (hpre : ∀ e ∈ pre, e.cols ≠ none ∧ alookup s.haveM e.node = none)
    (hnd : ((pre.map (fun e => e.node)).Nodup)) :
    (processOnePath ityp ni (e0 :: tail) s add).1 = Outcome.ok () ∧
    (processOnePath ityp ni (e0 :: tail) s add).2.2.2 = true := by
  unfold processOnePath
  dsimp only []
  refine ⟨rfl, ?_⟩
  cases hb : (e0.node == ni)
  · rw [hb] at hsplit
    rw [if_neg Bool.false_ne_true] at hsplit
    rw [if_neg Bool.false_ne_true]
    rw [show (e0 :: tail).drop 0 = e0 :: tail from rfl, hsplit]
    exact pathEntriesLoop_hits_none ityp 0 eN hN pre post 0 s add hpre hnd
  · rw [hb] at hsplit
    rw [if_pos rfl] at hsplit
    rw [if_pos rfl]
    rw [show (e0 :: tail).drop 1 = tail from rfl, hsplit]
    exact pathEntriesLoop_hits_none ityp 1 eN hN pre post 0 s add hpre hnd

/-- A run of the `'attempt` loop that processed a prefix of the obligation
indexes cleanly (no `None` hit, `able` still set) continues on the remaining
indexes from the state the prefix produced. -/
theorem attemptLoop_clean_append (g : Graph) (oracle : PathsOracle) (ni : Nat) :
    ∀ (preIdx : List Index) (able : Bool) (s : Materializations)
      (add : List (Nat × List Index)) (s₁ : Materializations)
      (add₁ : List (Nat × List Index)),
    attemptLoop g oracle ni preIdx able s add = (Outcome.ok (), s₁, add₁, true) →
    ∀ (rest2 : List Index),
    attemptLoop g oracle ni (preIdx ++ rest2) able s add =
      attemptLoop g oracle ni rest2 true s₁ add₁ := by
  intro preIdx
  induction preIdx with
  | nil =>
      intro able s add s₁ add₁ h rest2
      have hs : s = s₁ := congrArg (fun t => t.2.1) h
      have hadd : add = add₁ := congrArg (fun t => t.2.2.1) h
      have hab : able = true := congrArg (fun t => t.2.2.2) h
      subst hs
      subst hadd
      subst hab
      rfl
  | cons i0 pre' ih =>
      intro able s add s₁ add₁ h rest2
      cases hab : able
      · rw [hab] at h
        have h4 : (false : Bool) = true := congrArg (fun t => t.2.2.2) h
        exact absurd h4 Bool.false_ne_true
      · rw [hab] at h
        simp only [List.cons_append]
        simp only [attemptLoop] at h ⊢
        have c1 : ¬((!true) = true) := by simp
        rw [if_neg c1] at h ⊢
        cases hemp : i0.columns.isEmpty
        · have c2 : ¬(i0.columns.isEmpty = true) := by rw [hemp]; exact Bool.false_ne_true
          rw [if_neg c2] at h
          rw [if_neg Bool.false_ne_true]
          cases hora : oracle g ni i0.columns with
          | error e =>
              rw [hora] at h
              exact Outcome.noConfusion (congrArg Prod.fst h)
          | ok paths =>
              rw [hora] at h
              try dsimp only [] at h
              try dsimp only []
              cases hr1 : (processPathsLoop i0.indexType ni paths s add).1 with
              | ok u =>
                  rw [hr1] at h
                  try dsimp only [] at h
                  try dsimp only []
                  cases hsn : (processPathsLoop i0.indexType ni paths s add).2.2.2
                  · rw [hsn] at h
                    rw [if_neg Bool.false_ne_true] at h ⊢
                    exact ih true _ _ s₁ add₁ h rest2
                  · rw [hsn] at h
                    rw [if_pos rfl] at h
                    have h4 : (false : Bool) = true := congrArg (fun t => t.2.2.2) h
                    exact absurd h4 Bool.false_ne_true
              | err e =>
                  rw [hr1] at h
                  exact Outcome.noConfusion (congrArg Prod.fst h)
              | panic m =>
                  rw [hr1] at h
                  exact Outcome.noConfusion (congrArg Prod.fst h)
        · rw [if_pos hemp] at h
          exact Outcome.noConfusion (congrArg Prod.fst h)

/-- A run of the `for path in paths` loop that processed a prefix of the paths
cleanly (no `None` hit) continues on the remaining paths from the state the
prefix produced. -/
theorem processPathsLoop_clean_append (ityp : IndexType) (ni : Nat) :
    ∀ (prePaths : List (List OptColumnRef)) (s : Materializations)
      (add : List (Nat × List Index)) (s₂ : Materializations)
      (add₂ : List (Nat × List Index)),
    processPathsLoop ityp ni prePaths s add = (Outcome.ok (), s₂, add₂, false) →
    ∀ (rest : List (List OptColumnRef)),
    processPathsLoop ityp ni (prePaths ++ rest) s add =
      processPathsLoop ityp ni rest s₂ add₂ := by
  intro prePaths
  induction prePaths with
  | nil =>
      intro s add s₂ add₂ h rest
      have hs : s = s₂ := congrArg (fun t => t.2.1) h
      have hadd : add = add₂ := congrArg (fun t => t.2.2.1) h
      subst hs
      subst hadd
      rfl
  | cons p ps ih =>
      intro s add s₂ add₂ h rest
      simp only [List.cons_append]
      simp only [processPathsLoop] at h ⊢
      try dsimp only [] at h
      try dsimp only []
      cases hr1 : (processOnePath ityp ni p s add).1 with
      | ok u =>
          rw [hr1] at h
          try dsimp only [] at h
          try dsimp only []
          cases hsn : (processOnePath ityp ni p s add).2.2.2
          · rw [hsn] at h
            rw [if_neg Bool.false_ne_true] at h ⊢
            exact ih _ _ s₂ add₂ h rest
          · rw [hsn] at h
            rw [if_pos rfl] at h
            have h4 : (processOnePath ityp ni p s add).2.2.2 = false :=
              congrArg (fun t => t.2.2.2) h
            rw [hsn] at h4
            exact Bool.noConfusion h4
      | err e =>
          rw [hr1] at h
          exact Outcome.noConfusion (congrArg Prod.fst h)
      | panic m =>
          rw [hr1] at h
          exact Outcome.noConfusion (congrArg Prod.fst h)

/-- If the `'attempt` loop reaches (after a clean prefix of indexes and a
clean prefix of the chosen index's paths) a path holding a reached
`None`-columns entry, it finishes with `able = false`. -/
theorem attemptLoop_any_none (g : Graph) (oracle : PathsOracle) (ni : Nat)
    (preIdx : List Index) (idx : Index) (restIdx : List Index) (able : Bool)
    (s s₁ s₂ : Materializations) (add₁ add₂ : List (Nat × List Index))
    (prePaths postPaths : List (List OptColumnRef))
    (e0 : OptColumnRef) (tail pre post : List OptColumnRef) (eN : OptColumnRef)
    (hpreRun : attemptLoop g oracle ni preIdx true s [] = (Outcome.ok (), s₁, add₁, true))
    (hprePaths : processPathsLoop idx.indexType ni prePaths s₁ add₁ =
      (Outcome.ok (), s₂, add₂, false))
    (hcols : idx.columns.isEmpty = false)
    (hor : oracle g ni idx.columns = Except.ok (prePaths ++ (e0 :: tail) :: postPaths))
    (hsplit : (if e0.node == ni then tail else e0 :: tail) = pre ++ eN :: post)
    (hN : eN.cols = none)
    (hpre : ∀ e ∈ pre, e.cols ≠ none ∧ alookup s₂.haveM e.node = none)
    (hnd : ((pre.map (fun e => e.node)).Nodup)) :
    (attemptLoop g oracle ni (preIdx ++ idx :: restIdx) able s []).2.2.2 = false := by
  have hON := processOnePath_first_none idx.indexType ni e0 tail pre post eN s₂ add₂
    hsplit hN hpre hnd
  have hpp : (processPathsLoop idx.indexType ni ((e0 :: tail) :: postPaths) s₂ add₂).1 =
      Outcome.ok () ∧
      (processPathsLoop idx.indexType ni ((e0 :: tail) :: postPaths) s₂ add₂).2.2.2 = true := by
    simp only [processPathsLoop]
    try dsimp only []
    rw [hON.1]
    try dsimp only []
    rw [hON.2]
    rw [if_pos rfl]
    exact ⟨rfl, hON.2⟩
  cases hable : able
  · cases hl : preIdx ++ idx :: restIdx with
    | nil => rfl
    | cons a l => rfl
  · rw [attemptLoop_clean_append g oracle ni preIdx true s [] s₁ add₁ hpreRun
      (idx :: restIdx)]
    simp only [attemptLoop]
    have c1 : ¬((!true) = true) := by simp
    rw [if_neg c1]
    have c2 : ¬(idx.columns.isEmpty = true) := by rw [hcols]; exact Bool.false_ne_true
    rw [if_neg c2]
    rw [hor]
    try dsimp only []
    rw [processPathsLoop_clean_append idx.indexType ni prePaths s₁ add₁ s₂ add₂ hprePaths
      ((e0 :: tail) :: postPaths)]
    rw [hpp.1]
    try dsimp only []
    rw [hpp.2]
    rw [if_pos rfl]

/-- C7: during the partiality analysis, if any replay path computed for a
candidate node contains an entry with `None` columns (a generated column) —
at any position among the node's obligation indexes (`preIdx ++ idx :: restIdx`)
and any position among that index's paths (`prePaths ++ path :: postPaths`) —
and the analyzer actually reaches that entry (the earlier indexes and earlier
paths process cleanly into the states `s₁` and `s₂`, and the entries before it
on its path have concrete columns and hit no existing materialization), then
the node is not marked partial: the analyzer falls back to full
materialization. -/
theorem claim_C7 (g : Graph) (oracle : PathsOracle) (new : List Nat) (wfuel : Nat)
    (s : Materializations) (rp : List (Nat × List Index)) (ni : Nat)
    (preIdx : List Index) (idx : Index) (restIdx : List Index)
    (prePaths postPaths : List (List OptColumnRef))
    (e0 : OptColumnRef) (tail pre post : List OptColumnRef) (eN : OptColumnRef)
    (s₁ s₂ : Materializations) (add₁ add₂ : List (Nat × List Index))
    (s' : Materializations) (rp' : List (Nat × List Index))
    (hpreRun : attemptLoop g oracle ni preIdx true s [] = (Outcome.ok (), s₁, add₁, true))
    (hprePaths : processPathsLoop idx.indexType ni prePaths s₁ add₁ =
      (Outcome.ok (), s₂, add₂, false))
    (hcols : idx.columns.isEmpty = false)
    (hor : oracle g ni idx.columns = Except.ok (prePaths ++ (e0 :: tail) :: postPaths))
    (hsplit : (if e0.node == ni then tail else e0 :: tail) = pre ++ eN :: post)
    (hN : eN.cols = none)
    (hpre : ∀ e ∈ pre, e.cols ≠ none ∧ alookup s₂.haveM e.node = none)
    (hnd : ((pre.map (fun e => e.node)).Nodup))
    (hni : s.partialM.contains ni = false)
    (hrun : processNode g oracle new wfuel s rp ni (preIdx ++ idx :: restIdx) =
      (Outcome.ok (), s', rp')) :
    s'.partialM.contains ni = false := by
  unfold processNode at hrun
  cases hdw : descWalk g s wfuel (g.childrenOf ni) (initialAble g s new ni) with
  | panic m =>
      rw [hdw] at hrun
      exact Outcome.noConfusion (congrArg Prod.fst hrun)
  | err e =>
      rw [hdw] at hrun
      exact Outcome.noConfusion (congrArg Prod.fst hrun)
  | ok able4 =>
      rw [hdw] at hrun
      dsimp only [] at hrun
      have hA : (attemptLoop g oracle ni (preIdx ++ idx :: restIdx) able4 s []).2.2.2 =
          false :=
        attemptLoop_any_none g oracle ni preIdx idx restIdx able4 s s₁ s₂ add₁ add₂
          prePaths postPaths e0 tail pre post eN hpreRun hprePaths hcols hor hsplit hN
          hpre hnd
      cases ha : (attemptLoop g oracle ni (preIdx ++ idx :: restIdx) able4 s []).1 with
      | ok u =>
          rw [ha] at hrun
          dsimp only [] at hrun
          rw [hA] at hrun
          rw [if_neg Bool.false_ne_true] at hrun
          cases hpu : (g.nodeD ni).purge
          · rw [hpu] at hrun
            rw [if_neg Bool.false_ne_true] at hrun
            have hs' : fulfillObligations ni (preIdx ++ idx :: restIdx)
                ((attemptLoop g oracle ni (preIdx ++ idx :: restIdx) able4 s []).2.1) =
                s' :=
              congrArg (fun t => t.2.1) hrun
            rw [← hs', fulfill_partialM, attemptLoop_partialM]
            exact hni
          · rw [hpu] at hrun
            rw [if_pos rfl] at hrun
            exact Outcome.noConfusion (congrArg Prod.fst hrun)
      | err e =>
          rw [ha] at hrun
          exact Outcome.noConfusion (congrArg Prod.fst hrun)
      | panic m =>
          rw [ha] at hrun
          exact Outcome.noConfusion (congrArg Prod.fst hrun)

/-- Witness for C7 at scenario V: the `None`-columns entry sits in the second
path of node 2's second obligation index (first index `vIdx1`, first path of
the second index both processed cleanly), and node 2 indeed ends up
non-partial. -/
theorem claim_C7_witness : (freshMat FrontierStrategy.fsNone).partialM.contains 2 = false :=
  claim_C7 vGraph vOracle [2] (wfuelOf vGraph) (freshMat FrontierStrategy.fsNone) [] 2
    [vIdx1] h0 []
    [[⟨2, some [0]⟩]] []
    ⟨2, some [0]⟩ [⟨3, none⟩] [] [] ⟨3, none⟩
    (freshMat FrontierStrategy.fsNone) (freshMat FrontierStrategy.fsNone) [] []
    (freshMat FrontierStrategy.fsNone) []
    (by decide) (by decide) (by decide) rfl (by decide) (by decide)
    (by intro e he; exact absurd he (List.not_mem_nil e)) (by decide) (by decide)
    (by decide)

/-! ### Purge tracking through frontier marking and purge moving (for C8) -/

theorem alookup_mapAt {α : Type} (f : α → α) {m : List (Nat × α)} {x y : Nat} :
    alookup (m.map (fun p => if p.1 == x then (p.1, f p.2) else p)) y =
      if y = x then (alookup m y).map f else alookup m y := by
  induction m with
  | nil => by_cases h : y = x <;> simp [alookup, h]
  | cons p m ih =>
      by_cases hpx : p.1 = x
      · have hb : (p.1 == x) = true := by simpa using hpx
        simp only [List.map_cons, hb, if_true]
        rw [alookup_cons, alookup_cons]
        by_cases hyx : y = x
        · subst hyx
          have hb2 : (p.1 == y) = true := by simpa using hpx
          simp [hb2]
        · have hb2 : (p.1 == y) = false := by
            simp only [beq_eq_false_iff_ne, ne_eq]
            rw [hpx]
            exact fun hc => hyx hc.symm
          simp only [hb2, Bool.false_eq_true, if_false]
          rw [ih]
      · have hb : (p.1 == x) = false := by simpa using hpx
        simp only [List.map_cons, hb, Bool.false_eq_true, if_false]
        rw [alookup_cons, alookup_cons]
        cases hpy : p.1 == y
        · simp only [Bool.false_eq_true, if_false]
          exact ih
        · by_cases hyx : y = x
          · have : p.1 = y := by simpa using hpy
            rw [hyx] at this
            exact absurd this hpx
          · simp [hyx]

theorem node?_setPurge (g : Graph) (x : Nat) (b : Bool) (y : Nat) :
    (g.setPurge x b).node? y =
      if y = x then (g.node? y).map (fun n => { n with purge := b }) else g.node? y :=
  alookup_mapAt (fun (n : Node) => { n with purge := b })

theorem purgeOf_setPurge_true {g : Graph} {x : Nat} {b : Bool} {y : Nat}
    (h : (g.setPurge x b).purgeOf y = true) :
    g.purgeOf y = true ∨ (y = x ∧ b = true) := by
  by_cases hyx : y = x
  · subst hyx
    unfold Graph.purgeOf Graph.nodeD at h
    rw [node?_setPurge] at h
    simp only [if_pos rfl] at h
    cases hn : g.node? y with
    | none => rw [hn] at h; simp [missingNode] at h
    | some n => rw [hn] at h; exact Or.inr ⟨rfl, h⟩
  · unfold Graph.purgeOf Graph.nodeD at h ⊢
    rw [node?_setPurge] at h
    simp only [hyx, if_false] at h
    exact Or.inl h

theorem isReader_setPurge (g : Graph) (x : Nat) (b : Bool) (y : Nat) :
    ((g.setPurge x b).nodeD y).isReader = (g.nodeD y).isReader := by
  unfold Graph.nodeD
  rw [node?_setPurge]
  by_cases hyx : y = x
  · subst hyx
    simp only [if_pos rfl]
    cases hn : g.node? y with
    | none => rfl
    | some n => rfl
  · simp [hyx]

theorem frontierStep_isReader (s : Materializations) (g : Graph) (x y : Nat) :
    ((frontierStep s g x).nodeD y).isReader = ((g.nodeD y).isReader) := by
  unfold frontierStep
  dsimp only []
  repeat' split
  all_goals first | rfl | exact isReader_setPurge g x _ y

/-- Where a `purge` flag can come from in one frontier-marking iteration: it
was already set, or the iteration's node is not a skipped full
materialization. -/
theorem frontierStep_purge {s : Materializations} {g : Graph} {x ni : Nat}
    (h : (frontierStep s g x).purgeOf ni = true) :
    g.purgeOf ni = true ∨
      (ni = x ∧ (s.partialM.contains x = true ∨
        ((alookup s.haveM x).isSome = false ∧ (g.nodeD x).isReader = false))) := by
  have hguard : ∀ (b : Bool),
      (((alookup s.haveM x).isSome || (g.nodeD x).isReader) && !(s.partialM.contains x)) = false →
      (g.setPurge x b).purgeOf ni = true →
      g.purgeOf ni = true ∨
        (ni = x ∧ (s.partialM.contains x = true ∨
          ((alookup s.haveM x).isSome = false ∧ (g.nodeD x).isReader = false))) := by
    intro b hg hp
    rcases purgeOf_setPurge_true hp with hp | ⟨rfl, _⟩
    · exact Or.inl hp
    · refine Or.inr ⟨rfl, ?_⟩
      rcases Bool.and_eq_false_iff.1 hg with hg | hg
      · rcases Bool.or_eq_false_iff.1 hg with ⟨h1, h2⟩
        exact Or.inr ⟨h1, h2⟩
      · left
        cases hc : s.partialM.contains ni
        · rw [hc] at hg; simp at hg
        · rfl
  unfold frontierStep at h
  dsimp only [] at h
  cases hg : (((alookup s.haveM x).isSome || (g.nodeD x).isReader) && !(s.partialM.contains x))
  · rw [hg] at h
    rw [if_neg Bool.false_ne_true] at h
    rcases hst : s.strategy with _ | _ | _ | m <;> rw [hst] at h
    · cases hsh : strStarts (g.nodeD x).name "SHALLOW_" <;> rw [hsh] at h
      · rw [if_neg Bool.false_ne_true] at h
        cases hc : (!(s.partialM.contains x)) <;> rw [hc] at h
        · rw [if_neg Bool.false_ne_true] at h
          exact Or.inl h
        · rw [if_pos rfl] at h
          exact Or.inl h
      · rw [if_pos rfl] at h
        exact hguard true hg h
    · cases hsh : strStarts (g.nodeD x).name "SHALLOW_" <;> rw [hsh] at h
      · rw [if_neg Bool.false_ne_true] at h
        cases hc : (!(s.partialM.contains x)) <;> rw [hc] at h
        · rw [if_neg Bool.false_ne_true] at h
          exact hguard true hg h
        · rw [if_pos rfl] at h
          exact Or.inl h
      · rw [if_pos rfl] at h
        exact hguard true hg h
    · cases hsh : strStarts (g.nodeD x).name "SHALLOW_" <;> rw [hsh] at h
      · rw [if_neg Bool.false_ne_true] at h
        cases hc : (!(s.partialM.contains x)) <;> rw [hc] at h
        · rw [if_neg Bool.false_ne_true] at h
          exact hguard _ hg h
        · rw [if_pos rfl] at h
          exact Or.inl h
      · rw [if_pos rfl] at h
        exact hguard true hg h
    · exact hguard _ hg h
  · rw [hg] at h
    rw [if_pos rfl] at h
    exact Or.inl h

theorem frontierFold_purge (s : Materializations) (ni : Nat) :
    ∀ (l : List Nat) (g : Graph),
    ((l.foldl (frontierStep s) g).purgeOf ni = true) →
    g.purgeOf ni = true ∨
      (ni ∈ l ∧ (s.partialM.contains ni = true ∨
        ((alookup s.haveM ni).isSome = false ∧ (g.nodeD ni).isReader = false))) := by
  intro l
  induction l with
  | nil => intro g h; exact Or.inl h
  | cons x rest ih =>
      intro g h
      simp only [List.foldl_cons] at h
      rcases ih (frontierStep s g x) h with h1 | ⟨hmem, hC⟩
      · rcases frontierStep_purge h1 with h2 | ⟨rfl, hC⟩
        · exact Or.inl h2
        · exact Or.inr ⟨List.mem_cons_self _ _, hC⟩
      · rw [frontierStep_isReader s g x ni] at hC
        exact Or.inr ⟨List.mem_cons_of_mem _ hmem, hC⟩

theorem purgeMoveParents_purge (new : List Nat) (s : Materializations) (ni : Nat) :
    ∀ (parents : List Nat) (gg : Graph),
    (purgeMoveParents new s parents gg).2.purgeOf ni = true →
    gg.purgeOf ni = true ∨ s.partialM.contains ni = true := by
  intro parents
  induction parents with
  | nil => intro gg h; exact Or.inl h
  | cons pi rest ih =>
      intro gg h
      simp only [purgeMoveParents] at h
      cases hn : new.contains pi
      · have c1 : (!(new.contains pi)) = true := by rw [hn]; rfl
        rw [if_pos c1] at h
        exact ih gg h
      · have c1 : ¬((!(new.contains pi)) = true) := by rw [hn]; exact Bool.false_ne_true
        rw [if_neg c1] at h
        cases hh : (alookup s.haveM pi).isNone
        · have c2 : ¬((alookup s.haveM pi).isNone = true) := by rw [hh]; exact Bool.false_ne_true
          rw [if_neg c2] at h
          cases hp : s.partialM.contains pi
          · have c3 : (!(s.partialM.contains pi)) = true := by rw [hp]; rfl
            rw [if_pos c3] at h
            exact Or.inl h
          · have c3 : ¬((!(s.partialM.contains pi)) = true) := by rw [hp]; exact Bool.false_ne_true
            rw [if_neg c3] at h
            rcases ih _ h with h1 | h1
            · rcases purgeOf_setPurge_true h1 with h2 | ⟨rfl, _⟩
              · exact Or.inl h2
              · exact Or.inr hp
            · exact Or.inr h1
        · rw [if_pos hh] at h
          exact ih gg h

theorem purgeMove_purge (new : List Nat) (s : Materializations) (ni : Nat) :
    ∀ (l : List Nat) (gg : Graph),
    (purgeMove new s l gg).2.purgeOf ni = true →
    gg.purgeOf ni = true ∨ s.partialM.contains ni = true := by
  intro l
  induction l with
  | nil => intro gg h; exact Or.inl h
  | cons x rest ih =>
      intro gg h
      simp only [purgeMove] at h
      cases hcnd : (gg.purgeOf x && !((alookup s.haveM x).isSome || (gg.nodeD x).isReader))
      · rw [hcnd] at h
        rw [if_neg Bool.false_ne_true] at h
        exact ih gg h
      · rw [hcnd] at h
        rw [if_pos rfl] at h
        try dsimp only [] at h
        cases hpp : (purgeMoveParents new s (gg.parentsOf x) gg).1 with
        | ok u =>
            rw [hpp] at h
            rcases ih _ h with h1 | h1
            · exact purgeMoveParents_purge new s ni (gg.parentsOf x) gg h1
            · exact Or.inr h1
        | err e =>
            rw [hpp] at h
            exact purgeMoveParents_purge new s ni (gg.parentsOf x) gg h
        | panic m =>
            rw [hpp] at h
            exact purgeMoveParents_purge new s ni (gg.parentsOf x) gg h

/-- C8, amended: the frontier-marking step never sets purge on a full
materialization, and a node found inadmissible for partiality must not carry
the purge flag (asserted in `extend`). However purge may legitimately be set
on *stateless* nodes (via `SHALLOW_` naming or `Match`), so after a successful
commit a node that acquired the purge flag is a reader, or partially
materialized, or not materialized at all. -/
theorem claim_C8_amended (g : Graph) (oracle : PathsOracle) (prov : ProvenanceOracle)
    (s : Materializations) (new : List Nat) (s' : Materializations) (g' : Graph) (ni : Nat)
    (hc : commitM g oracle prov s new = (Outcome.ok (), s', g'))
    (hp0 : g.purgeOf ni = false)
    (hp1 : g'.purgeOf ni = true) :
    (g.nodeD ni).isReader = true ∨ s'.partialM.contains ni = true ∨
      alookup s'.haveM ni = none := by
  obtain ⟨hx1, hhave, hpart, hpmok, hg⟩ := commit_ok_destruct g oracle prov s new s' g' hc
  rw [hg] at hp1
  rcases purgeMove_purge new _ ni new _ hp1 with h1 | h1
  · rcases frontierFold_purge _ ni new g h1 with h2 | ⟨_, hC⟩
    · rw [hp0] at h2; cases h2
    · rcases hC with hC | ⟨hC1, hC2⟩
      · refine Or.inr (Or.inl ?_)
        rw [hpart]
        exact hC
      · refine Or.inr (Or.inr ?_)
        rw [hhave]
        cases hl : alookup (extendM g oracle s new).2.haveM ni
        · rfl
        · rw [hl] at hC1; simp at hC1
  · refine Or.inr (Or.inl ?_)
    rw [hpart]
    exact h1

/-- Witness for C8 (amended) at scenario Y: node 1 acquires purge and is
indeed unmaterialized. -/
theorem claim_C8_amended_witness :
    (yGraph.nodeD 1).isReader = true ∨
    (freshMat FrontierStrategy.fsNone).partialM.contains 1 = true ∨
    alookup (freshMat FrontierStrategy.fsNone).haveM 1 = none :=
  claim_C8_amended yGraph emptyOracle emptyProv (freshMat FrontierStrategy.fsNone) [1]
    (freshMat FrontierStrategy.fsNone) yGraphPurged 1 (by decide) (by decide) (by decide)

end ReadysetProof
